import Mathlib

/-!
# secret-controller: materialization and reconciliation

A shallow embedding of `src/secret.go`, `src/controller.go` and
`src/pkg/apis/secretcontroller/v1alpha1/types.go`.

Conventions of the embedding:

* a Go `error` value is the record of what the program can observe of it: the
  text of `Error()` and whether `errors.IsNotFound` holds of it; a nil error is
  `none`;
* the secret store and the cluster API are collaborators whose answers are
  functions of the arguments of the call; every call the program makes to them
  is recorded, in order, in a list of `Call`s returned along with the result;
* `[]byte(s)` keeps the bytes of the string `s`, so `Data` holds the strings;
* a Go map is an association list with at most one pair per key, read with
  `DataMap.get`; the nil map and the empty map are both the empty list;
* the work queue, whose code is a library's, is a state with the operations
  the controller calls on it, each of them atomic.
-/

namespace SecretController

/-! ## Errors -/

/-- A Go `error`: the text of `Error()` and whether `errors.IsNotFound` holds. -/
structure GoError where
  text : String
  notFound : Bool
  deriving DecidableEq, Repr

/-- The method `Error()` of an error. -/
def GoError.Error (e : GoError) : String := e.text

/-- The function `fmt.Errorf` on a text without verbs: a plain error. -/
def Errorf (text : String) : GoError := { text := text, notFound := false }

/-- The function `errors.IsNotFound`: false on the nil error. -/
def IsNotFound : Option GoError → Bool
  | none => false
  | some e => e.notFound

/-! ## The API types (`types.go`) -/

/-- The type `KeyvaultSecretEntry`. -/
structure KeyvaultSecretEntry where
  KeyvaultName : String := ""
  KeyvaultVersion : String := ""
  KubernetesName : String := ""
  SecretTemplate : String := ""
  deriving DecidableEq, Repr

/-- The type `KeyvaultSecretSpec`. -/
structure KeyvaultSecretSpec where
  SecretName : String := ""
  Items : List KeyvaultSecretEntry := []
  deriving DecidableEq, Repr

/-- The type `KeyvaultSecret`, with the fields of `ObjectMeta` the program reads. -/
structure KeyvaultSecret where
  Name : String := ""
  Namespace : String := ""
  UID : String := ""
  ResourceVersion : String := ""
  Spec : KeyvaultSecretSpec := {}
  deriving DecidableEq, Repr

/-- The method `IsTemplateEntry`. -/
def KeyvaultSecretEntry.IsTemplateEntry (entry : KeyvaultSecretEntry) : Bool :=
  entry.SecretTemplate != ""

/-- The method `IsValid`. -/
def KeyvaultSecretEntry.IsValid (entry : KeyvaultSecretEntry) : Bool × Option GoError :=
  if entry.KubernetesName == "" || (entry.KeyvaultName == "" && entry.SecretTemplate == "") then
    (false, some (Errorf "NameKubernetes and one of NameKeyvault and SecretTemplate must be set"))
  else
    (true, none)

/-! ## The derived Secret -/

/-- The type `schema.GroupVersion`. -/
structure GroupVersion where
  Group : String
  Version : String
  deriving DecidableEq, Repr

/-- The method `GroupVersion.String`. -/
def GroupVersion.String (gv : GroupVersion) : String :=
  if gv.Group.length > 0 then gv.Group ++ "/" ++ gv.Version else gv.Version

/-- The type `metav1.OwnerReference`; the two pointers to bool are options. -/
structure OwnerReference where
  APIVersion : String
  Kind : String
  Name : String
  UID : String
  Controller : Option Bool
  BlockOwnerDeletion : Option Bool
  deriving DecidableEq, Repr

/-- A map from string to bytes, as an association list. -/
abbrev DataMap := List (String × String)

/-- The read `m[k]` of a map. -/
def DataMap.get (m : DataMap) (k : String) : Option String :=
  match m with
  | [] => none
  | (k', v) :: rest => if k' = k then some v else DataMap.get rest k

/-- The assignment `m[k] = v` of a map: the pair of `k`, if any, is replaced. -/
def DataMap.set (m : DataMap) (k : String) (v : String) : DataMap :=
  match m with
  | [] => [(k, v)]
  | (k', v') :: rest => if k' = k then (k, v) :: rest else (k', v') :: DataMap.set rest k v

/-- The type `corev1.Secret`, with the fields the program sets. -/
structure Secret where
  Name : String
  Namespace : String
  OwnerReferences : List OwnerReference
  Data : DataMap
  deriving DecidableEq, Repr

/-! ## The collaborators and the record of calls -/

/-- The interface `secretstore.Client`. -/
structure StoreClient where
  GetSecretValue : String → Except GoError String
  GetSecretValueForVersion : String → String → Except GoError String

/-- A value the work queue holds, an `interface{}`: a string key, or a value
of another type, told apart by a tag. -/
inductive Item
  | key (s : String)
  | other (tag : Nat)
  deriving DecidableEq, Repr

/-- A call the program makes to a collaborator. -/
inductive Call
  | GetSecretValue (name : String)
  | GetSecretValueForVersion (name version : String)
  | ListerGet (ns name : String)
  | Update (ns : String) (secret : Secret)
  | Create (ns : String) (secret : Secret)
  | Event (ns name reason message : String)
  | HandleError
  | AddRateLimited (key : String)
  | Forget (obj : Item)
  | Done (obj : Item)
  deriving DecidableEq, Repr

/-- Whether a call is an `Update` of a Secret. -/
def Call.isUpdate : Call → Bool
  | .Update _ _ => true
  | _ => false

/-- Whether a call is a `Create` of a Secret. -/
def Call.isCreate : Call → Bool
  | .Create _ _ => true
  | _ => false

/-- Whether a call goes to the work queue. -/
def Call.isQueue : Call → Bool
  | .AddRateLimited _ => true
  | .Forget _ => true
  | .Done _ => true
  | _ => false

/-- Whether a call goes to the secret store. -/
def Call.isStore : Call → Bool
  | .GetSecretValue _ => true
  | .GetSecretValueForVersion _ _ => true
  | _ => false

/-! ## The template layer (`html/template`, the call-only fragment)

The program renders a template entry with the library `html/template`, with
the delimiters `[[` and `]]` and two functions. The library is modelled on the
fragment the program is specified for: literal text free of `<` (so that the
whole template stays in the HTML text context) and actions that are one call of
a function to double-quoted string literals without escape sequences, the
tokens separated by blanks or tabs. On that fragment the model follows the
library: lexing finds the leftmost `[[`, a function that is not defined is a
parse error, a wrong number of arguments is an execution error, and the string
an action yields is written through the library's HTML escaper. A template
outside the fragment is answered with `TemplateError.outsideFragment`; the
library may accept such a template, and no statement below relies on that
answer being what the library gives. Every other error is one the library
gives as well: an action that the end of the text leaves open, a string
literal that a newline or the end of the text leaves open, an action without
a command, and a call of a name that is not a function.
-/

/-- An error of the template layer. -/
inductive TemplateError
  | unclosedAction
  | unterminatedQuote
  | badCharacter
  | missingValue
  | undefinedFunction (fn : String)
  | wrongArgCount (fn : String) (want got : Nat)
  | outsideFragment
  deriving DecidableEq, Repr

/-- The Go error of a template error; none of them is an API status error. -/
def TemplateError.toGoError : TemplateError → GoError
  | .unclosedAction => Errorf "template: unclosed action"
  | .unterminatedQuote => Errorf "template: unterminated quoted string"
  | .badCharacter => Errorf "template: bad character"
  | .missingValue => Errorf "template: missing value for command"
  | .undefinedFunction fn => Errorf ("template: function " ++ fn ++ " not defined")
  | .wrongArgCount fn _ _ => Errorf ("template: wrong number of args for " ++ fn)
  | .outsideFragment => Errorf "template: construct outside the modelled fragment"

/-- A function of a `template.FuncMap`, returning a string. -/
inductive TemplateFunc
  | unary (f : String → String × List Call)
  | binary (f : String → String → String × List Call)

/-- The type `template.FuncMap`. -/
abbrev FuncMap := List (String × TemplateFunc)

/-- The function of a name in a `FuncMap`. -/
def FuncMap.find (funcs : FuncMap) (name : String) : Option TemplateFunc :=
  match funcs with
  | [] => none
  | (n, f) :: rest => if n = name then some f else FuncMap.find rest name

/-- A node of a parsed template: literal text, or a call of a function to literals. -/
inductive Node
  | text (s : String)
  | call (fn : String) (args : List String)
  deriving DecidableEq, Repr

/-- A token inside an action. -/
inductive Tok
  | ident (s : String)
  | str (s : String)
  deriving DecidableEq, Repr

/-- Where the lexer is. -/
inductive Mode
  | text (pending : Bool)
  | action
  | ident
  | quote
  | afterQuote
  | closing
  deriving DecidableEq, Repr

/-- The state of the lexer: the nodes and tokens so far and the characters of the
piece being read, all in order. -/
structure LexState where
  mode : Mode
  nodes : List Node
  toks : List Tok
  buf : List Char
  deriving DecidableEq, Repr

/-- The double quote. -/
def dquote : Char := Char.ofNat 34

/-- The backslash. -/
def backslash : Char := Char.ofNat 92

/-- The blanks that separate the tokens of an action. -/
def isSpace (c : Char) : Bool := c = ' ' || c = '\t'

/-- The ASCII letters and the underscore. -/
def isAlpha (c : Char) : Bool :=
  c = '_' || ('a'.toNat ≤ c.toNat && c.toNat ≤ 'z'.toNat) || ('A'.toNat ≤ c.toNat && c.toNat ≤ 'Z'.toNat)

/-- The ASCII letters, digits and the underscore. -/
def isAlphaNumeric (c : Char) : Bool :=
  isAlpha c || ('0'.toNat ≤ c.toNat && c.toNat ≤ '9'.toNat)

/-- The keywords and constants of the template language. -/
def keywords : List String :=
  ["block", "break", "continue", "define", "else", "end", "if", "range", "nil", "template",
   "with", "true", "false"]

/-- The functions the library predefines. -/
def builtins : List String :=
  ["and", "call", "html", "index", "slice", "js", "len", "not", "or", "print", "printf",
   "println", "urlquery", "eq", "ge", "gt", "le", "lt", "ne"]

/-- The string literals among the tokens, when all of them are. -/
def literalArgs : List Tok → Option (List String)
  | [] => some []
  | .str s :: rest => (literalArgs rest).map (fun args => s :: args)
  | .ident _ :: _ => none

/-- The node of the tokens of an action, given the names that are defined. -/
def actionNode (funcs : FuncMap) : List Tok → Except TemplateError Node
  | [] => .error .missingValue
  | .str _ :: _ => .error .outsideFragment
  | .ident fn :: rest =>
    if fn ∈ keywords then .error .outsideFragment
    else match funcs.find fn with
      | some _ =>
        match literalArgs rest with
        | some args => .ok (.call fn args)
        | none => .error .outsideFragment
      | none => if fn ∈ builtins then .error .outsideFragment else .error (.undefinedFunction fn)

/-- The literal text read so far, as a node; no node for no text. -/
def flushText (nodes : List Node) (buf : List Char) : List Node :=
  if buf = [] then nodes else nodes ++ [.text (String.mk buf)]

/-- One character of input. -/
def lexStep (funcs : FuncMap) (st : LexState) (c : Char) : Except TemplateError LexState :=
  match st.mode with
  | .text pending =>
    if c = '[' then
      if pending then .ok { st with mode := .action, nodes := flushText st.nodes st.buf, toks := [], buf := [] }
      else .ok { st with mode := .text true }
    else if c = '<' then .error .outsideFragment
    else if pending then .ok { st with mode := .text false, buf := st.buf ++ ['[', c] }
    else .ok { st with buf := st.buf ++ [c] }
  | .action =>
    if isSpace c then .ok st
    else if c = ']' then .ok { st with mode := .closing }
    else if c = dquote then .ok { st with mode := .quote, buf := [] }
    else if isAlpha c then .ok { st with mode := .ident, buf := [c] }
    else .error .outsideFragment
  | .ident =>
    if isAlphaNumeric c then .ok { st with buf := st.buf ++ [c] }
    else if isSpace c then .ok { st with mode := .action, toks := st.toks ++ [.ident (String.mk st.buf)], buf := [] }
    else if c = ']' then .ok { st with mode := .closing, toks := st.toks ++ [.ident (String.mk st.buf)], buf := [] }
    else .error .outsideFragment
  | .quote =>
    if c = dquote then .ok { st with mode := .afterQuote, toks := st.toks ++ [.str (String.mk st.buf)], buf := [] }
    else if c = backslash then .error .outsideFragment
    else if c = '\n' then .error .unterminatedQuote
    else .ok { st with buf := st.buf ++ [c] }
  | .afterQuote =>
    if isSpace c then .ok { st with mode := .action }
    else if c = ']' then .ok { st with mode := .closing }
    else .error .outsideFragment
  | .closing =>
    if c = ']' then
      match actionNode funcs st.toks with
      | .ok node => .ok { mode := .text false, nodes := st.nodes ++ [node], toks := [], buf := [] }
      | .error e => .error e
    else .error .outsideFragment

/-- The input, character by character. -/
def lexRun (funcs : FuncMap) (st : LexState) : List Char → Except TemplateError LexState
  | [] => .ok st
  | c :: cs =>
    match lexStep funcs st c with
    | .ok st' => lexRun funcs st' cs
    | .error e => .error e

/-- The end of the input. -/
def lexFinish (st : LexState) : Except TemplateError (List Node) :=
  match st.mode with
  | .text pending => .ok (flushText st.nodes (if pending then st.buf ++ ['['] else st.buf))
  | .quote => .error .unterminatedQuote
  | _ => .error .unclosedAction

/-- A parsed template with its functions. -/
structure Template where
  name : String
  funcs : FuncMap
  nodes : List Node

/-- The chain `template.New(name).Delims("[[", "]]").Funcs(funcs).Parse(text)`. -/
def Parse (name : String) (funcs : FuncMap) (text : String) : Except GoError Template :=
  match lexRun funcs { mode := .text false, nodes := [], toks := [], buf := [] } text.data with
  | .error e => .error e.toGoError
  | .ok st =>
    match lexFinish st with
    | .error e => .error e.toGoError
    | .ok nodes => .ok { name := name, funcs := funcs, nodes := nodes }

/-- The replacement of a character by the library's HTML escaper
(`htmlReplacementTable`): none for a character it leaves alone. -/
def htmlReplacement (c : Char) : Option String :=
  if c = Char.ofNat 0 then some (String.mk [Char.ofNat 0xFFFD])
  else if c = dquote then some "&#34;"
  else if c = '&' then some "&amp;"
  else if c = Char.ofNat 39 then some "&#39;"
  else if c = '+' then some "&#43;"
  else if c = '<' then some "&lt;"
  else if c = '>' then some "&gt;"
  else none

/-- The HTML escaper on the characters of a string. -/
def htmlEscapeChars : List Char → List Char
  | [] => []
  | c :: cs =>
    match htmlReplacement c with
    | some r => r.data ++ htmlEscapeChars cs
    | none => c :: htmlEscapeChars cs

/-- The library's `htmlEscaper` on a plain string, which it applies to what an
action yields in the HTML text context. -/
def htmlEscaper (s : String) : String := String.mk (htmlEscapeChars s.data)

/-- The call of a function of the template to its arguments. -/
def evalCall (fn : String) (f : TemplateFunc) (args : List String) :
    Except TemplateError (String × List Call) :=
  match f, args with
  | .unary g, [a] => .ok (g a)
  | .unary _, _ => .error (.wrongArgCount fn 1 args.length)
  | .binary g, [a, b] => .ok (g a b)
  | .binary _, _ => .error (.wrongArgCount fn 2 args.length)

/-- The execution of the nodes in order, writing to the buffer `out`; the calls
made before an error stay made. -/
def execNodes (funcs : FuncMap) : List Node → String → Except GoError String × List Call
  | [], out => (.ok out, [])
  | .text s :: rest, out => execNodes funcs rest (out ++ s)
  | .call fn args :: rest, out =>
    match funcs.find fn with
    | none => (.error (TemplateError.undefinedFunction fn).toGoError, [])
    | some f =>
      match evalCall fn f args with
      | .error e => (.error e.toGoError, [])
      | .ok (v, calls) =>
        let r := execNodes funcs rest (out ++ htmlEscaper v)
        (r.1, calls ++ r.2)

/-- The method `Execute` of a template, on an empty buffer, with no data. -/
def Template.Execute (t : Template) : Except GoError String × List Call :=
  execNodes t.funcs t.nodes ""

/-! ## The converter (`secret.go`) -/

/-- The type `SecretConverter`. -/
structure SecretConverter where
  keyvaultSecret : KeyvaultSecret
  storeClient : StoreClient

/-- The function `metav1.NewControllerRef` for a KeyvaultSecret. -/
def NewControllerRef (owner : KeyvaultSecret) (gv : GroupVersion) (kind : String) : OwnerReference :=
  { APIVersion := gv.String, Kind := kind, Name := owner.Name, UID := owner.UID,
    Controller := some true, BlockOwnerDeletion := some true }

/-- The method `newSecret`; `SchemeGroupVersion` is the constant of the API package. -/
def SecretConverter.newSecret (SchemeGroupVersion : GroupVersion) (c : SecretConverter) : Secret :=
  { Name := c.keyvaultSecret.Name,
    Namespace := c.keyvaultSecret.Namespace,
    OwnerReferences := [NewControllerRef c.keyvaultSecret
      { Group := SchemeGroupVersion.Group, Version := SchemeGroupVersion.Version } "KeyvaultSecret"],
    Data := [] }

/-- The method `templateFuncSecretValueForVersion`. -/
def SecretConverter.templateFuncSecretValueForVersion (c : SecretConverter) (name version : String) :
    String × List Call :=
  match c.storeClient.GetSecretValue name with
  | .error err => (err.Error, [.GetSecretValue name])
  | .ok secretValue => (secretValue, [.GetSecretValue name])

/-- The method `templateFuncSecretValue`. -/
def SecretConverter.templateFuncSecretValue (c : SecretConverter) (name : String) : String × List Call :=
  c.templateFuncSecretValueForVersion name ""

/-- The method `getTemplate`. -/
def SecretConverter.getTemplate (c : SecretConverter) (item : KeyvaultSecretEntry) :
    Except GoError Template :=
  Parse item.KubernetesName
    [("secretValue", .unary c.templateFuncSecretValue),
     ("secretValueForVersion", .binary c.templateFuncSecretValueForVersion)]
    item.SecretTemplate

/-- The method `processTemplate`. -/
def SecretConverter.processTemplate (c : SecretConverter) (item : KeyvaultSecretEntry) :
    Except GoError String × List Call :=
  match c.getTemplate item with
  | .error err => (.error err, [])
  | .ok t =>
    match t.Execute with
    | (.error err, calls) => (.error err, calls)
    | (.ok tpl, calls) => (.ok tpl, calls)

/-- The loop of `getK8sSecret` over the items that remain, from the secret so far. -/
def SecretConverter.getK8sSecretLoop (c : SecretConverter) :
    List KeyvaultSecretEntry → Secret → (Secret × Option GoError) × List Call
  | [], secret => ((secret, none), [])
  | item :: rest, secret =>
    if !item.IsValid.1 then ((secret, item.IsValid.2), [])
    else if item.IsTemplateEntry then
      match c.processTemplate item with
      | (.error err, calls) => ((secret, some err), calls)
      | (.ok parsed, calls) =>
        let r := c.getK8sSecretLoop rest { secret with Data := secret.Data.set item.KubernetesName parsed }
        (r.1, calls ++ r.2)
    else
      match c.storeClient.GetSecretValueForVersion item.KeyvaultName item.KeyvaultVersion with
      | .error err => ((secret, some err), [.GetSecretValueForVersion item.KeyvaultName item.KeyvaultVersion])
      | .ok secretValue =>
        let r := c.getK8sSecretLoop rest { secret with Data := secret.Data.set item.KubernetesName secretValue }
        (r.1, .GetSecretValueForVersion item.KeyvaultName item.KeyvaultVersion :: r.2)

/-- The method `getK8sSecret`: the secret, the error (none for nil) and the calls made. -/
def SecretConverter.getK8sSecret (SchemeGroupVersion : GroupVersion) (c : SecretConverter) :
    (Secret × Option GoError) × List Call :=
  c.getK8sSecretLoop c.keyvaultSecret.Spec.Items (c.newSecret SchemeGroupVersion)

/-! ## The controller (`controller.go`) -/

/-- The interface of the cluster for Secrets: the error of an `Update` and of a
`Create` in a namespace (none for nil). -/
structure KubeClient where
  Update : String → Secret → Option GoError
  Create : String → Secret → Option GoError

/-- The fields of `Controller` that reconciliation uses. -/
structure Controller where
  kubeclientset : KubeClient
  keyvaultClient : StoreClient
  keyvaultSecretsLister : String → String → Except GoError KeyvaultSecret

/-- The constant `SecretCreated`. -/
def SecretCreated : String := "Created"

/-- The constant `MessageSecretCreated`. -/
def MessageSecretCreated : String := "Key Vault Secret created successfully"

/-- The method `createOrUpdateSecret`: the error returned and the calls made. -/
def Controller.createOrUpdateSecret (SchemeGroupVersion : GroupVersion) (c : Controller)
    (keyvaultSecret : KeyvaultSecret) : Option GoError × List Call :=
  let converter : SecretConverter := { keyvaultSecret := keyvaultSecret, storeClient := c.keyvaultClient }
  match converter.getK8sSecret SchemeGroupVersion with
  | ((_, some err), calls) => (some err, calls)
  | ((secret, none), calls) =>
    match c.kubeclientset.Update keyvaultSecret.Namespace secret with
    | some err =>
      if IsNotFound (some err) then
        match c.kubeclientset.Create keyvaultSecret.Namespace secret with
        | some err' =>
          (some err', calls ++ [.Update keyvaultSecret.Namespace secret, .Create keyvaultSecret.Namespace secret])
        | none =>
          (none, calls ++ [.Update keyvaultSecret.Namespace secret, .Create keyvaultSecret.Namespace secret])
      else (some err, calls ++ [.Update keyvaultSecret.Namespace secret])
    | none => (none, calls ++ [.Update keyvaultSecret.Namespace secret])

/-- The pieces of a list of characters between the slashes. -/
def splitSlash : List Char → List (List Char)
  | [] => [[]]
  | c :: cs =>
    if c = '/' then [] :: splitSlash cs
    else
      match splitSlash cs with
      | [] => [[c]]
      | p :: ps => (c :: p) :: ps

/-- The function `cache.SplitMetaNamespaceKey`: the namespace and the name of a key. -/
def SplitMetaNamespaceKey (key : String) : Except GoError (String × String) :=
  match splitSlash key.data with
  | [name] => .ok ("", String.mk name)
  | [ns, name] => .ok (String.mk ns, String.mk name)
  | _ => .error (Errorf ("unexpected key format: " ++ key))

/-- The method `secretHandler`: the error returned and the calls made. -/
def Controller.secretHandler (SchemeGroupVersion : GroupVersion) (c : Controller) (key : String) :
    Option GoError × List Call :=
  match SplitMetaNamespaceKey key with
  | .error _ => (none, [.HandleError])
  | .ok (ns, secretName) =>
    match c.keyvaultSecretsLister ns secretName with
    | .error err =>
      if IsNotFound (some err) then (none, [.ListerGet ns secretName])
      else (some err, [.ListerGet ns secretName])
    | .ok keyvaultSecret =>
      match c.createOrUpdateSecret SchemeGroupVersion keyvaultSecret with
      | (some err, calls) => (some err, .ListerGet ns secretName :: calls)
      | (none, calls) =>
        (none, .ListerGet ns secretName :: calls ++
          [.Event keyvaultSecret.Namespace keyvaultSecret.Name SecretCreated MessageSecretCreated])

/-! ## Predicates and sample data of the statements -/

/-- When an entry makes materialization fail: it is invalid, or it is a direct
entry the store has no value for, or it is a template entry whose rendering fails. -/
def SecretConverter.entryFails (c : SecretConverter) (item : KeyvaultSecretEntry) : Prop :=
  item.IsValid.1 = false ∨
  (item.IsTemplateEntry = false ∧
    ∃ err, c.storeClient.GetSecretValueForVersion item.KeyvaultName item.KeyvaultVersion = .error err) ∨
  (item.IsTemplateEntry = true ∧ ∃ err, (c.processTemplate item).1 = .error err)

/-- The functions of a `FuncMap` call nothing but the secret store. -/
def FuncMap.storeOnly (funcs : FuncMap) : Prop :=
  ∀ name f, funcs.find name = some f →
    match f with
    | .unary g => ∀ a, ∀ call ∈ (g a).2, call.isStore = true
    | .binary g => ∀ a b, ∀ call ∈ (g a b).2, call.isStore = true

/-- A store that knows `k1` at every version and nothing else. -/
def storeK1 : StoreClient :=
  { GetSecretValue := fun _ => .error (Errorf "no latest"),
    GetSecretValueForVersion := fun name _ => if name = "k1" then .ok "v1" else .error (Errorf "not found") }

/-- A controller over `storeK1` whose cluster accepts every write. -/
def controllerK1 : Controller :=
  { kubeclientset := { Update := fun _ _ => none, Create := fun _ _ => none },
    keyvaultClient := storeK1,
    keyvaultSecretsLister := fun _ _ => .error { text := "not found", notFound := true } }

/-- A specification whose first entry resolves and whose second is invalid. -/
def specValidThenInvalid : KeyvaultSecret :=
  { Name := "spec", Namespace := "ns",
    Spec := { Items := [{ KeyvaultName := "k1", KubernetesName := "o1" }, { KeyvaultName := "k2" }] } }

/-- A store that answers a name with the name and the version it is asked at. -/
def storeEcho : StoreClient :=
  { GetSecretValue := fun name => .ok (name ++ "@latest"),
    GetSecretValueForVersion := fun name version => .ok (name ++ "@" ++ version) }

/-- A converter with two direct entries, one at a version and one at the latest. -/
def converterTwoDirect : SecretConverter :=
  { keyvaultSecret :=
      { Name := "spec", Namespace := "ns",
        Spec := { Items := [{ KeyvaultName := "k1", KeyvaultVersion := "v2", KubernetesName := "o1" },
                            { KeyvaultName := "k2", KubernetesName := "o2" }] } },
    storeClient := storeEcho }

/-- The template text of one call of `secretValue` to the literal `k`:
`[[ secretValue "k" ]]`. -/
def secretValueTemplate (k : String) : String :=
  String.mk ("[[ secretValue ".data ++ [dquote] ++ k.data ++ [dquote] ++ " ]]".data)

/-- A string that a double-quoted literal of the template language holds as it
is: no double quote, no backslash, no newline. -/
def plainLiteral (k : String) : Prop :=
  ∀ ch ∈ k.data, ch ≠ dquote ∧ ch ≠ backslash ∧ ch ≠ '\n'

/-- A store whose value of `k` at the latest version holds `+` and `&`. -/
def storeSpecial : StoreClient :=
  { GetSecretValue := fun name => if name = "k" then .ok "a+b&c" else .error (Errorf "not found"),
    GetSecretValueForVersion := fun name version =>
      if name = "k" ∧ version = "" then .ok "a+b&c" else .error (Errorf "not found") }

/-- A converter with the single template entry `[[ secretValue "k" ]]` for the key `o1`. -/
def converterSpecial : SecretConverter :=
  { keyvaultSecret :=
      { Name := "spec", Namespace := "ns",
        Spec := { Items := [{ KubernetesName := "o1", SecretTemplate := "[[ secretValue \"k\" ]]" }] } },
    storeClient := storeSpecial }

/-- A store that has no secret at all. -/
def storeEmpty : StoreClient :=
  { GetSecretValue := fun _ => .error (Errorf "Secret not found"),
    GetSecretValueForVersion := fun _ _ => .error (Errorf "Secret not found") }

/-- A converter over `storeEmpty` with the single template entry `[[ secretValue "k" ]]`. -/
def converterEmptyStore : SecretConverter :=
  { keyvaultSecret :=
      { Name := "spec", Namespace := "ns",
        Spec := { Items := [{ KubernetesName := "o1", SecretTemplate := "[[ secretValue \"k\" ]]" }] } },
    storeClient := storeEmpty }

/-- A converter over `storeEcho` whose second entry calls `secretValue1`, which is not defined. -/
def converterUndefinedFunc : SecretConverter :=
  { keyvaultSecret :=
      { Name := "spec", Namespace := "ns",
        Spec := { Items := [{ KeyvaultName := "k0", KubernetesName := "o0" },
                            { KubernetesName := "o1", SecretTemplate := "[[ secretValue1 \"k\" ]]" }] } },
    storeClient := storeEcho }

/-- A store where `k` holds `old` at version `v1`, `new` at version `v2` and
`latest` at the latest version. -/
def storeVersions : StoreClient :=
  { GetSecretValue := fun name => if name = "k" then .ok "latest" else .error (Errorf "not found"),
    GetSecretValueForVersion := fun name version =>
      if name = "k" ∧ version = "v1" then .ok "old"
      else if name = "k" ∧ version = "v2" then .ok "new"
      else if name = "k" ∧ version = "" then .ok "latest"
      else .error (Errorf "not found") }

/-- A converter over `storeVersions` with the single template entry
`[[ secretValueForVersion "k" "v1" ]]`. -/
def converterVersions : SecretConverter :=
  { keyvaultSecret :=
      { Name := "spec", Namespace := "ns",
        Spec := { Items := [{ KubernetesName := "o1",
                              SecretTemplate := "[[ secretValueForVersion \"k\" \"v1\" ]]" }] } },
    storeClient := storeVersions }

/-- A controller over `storeK1` whose cluster has no Secret yet: `Update`
answers NotFound and `Create` succeeds. -/
def controllerFresh : Controller :=
  { kubeclientset :=
      { Update := fun _ _ => some { text := "secrets not found", notFound := true },
        Create := fun _ _ => none },
    keyvaultClient := storeK1,
    keyvaultSecretsLister := fun _ _ => .error { text := "not found", notFound := true } }

/-- A specification named `spec` whose `secretName` is `target`. -/
def specNamedTarget : KeyvaultSecret :=
  { Name := "spec", Namespace := "ns", UID := "u1",
    Spec := { SecretName := "target", Items := [{ KeyvaultName := "k1", KubernetesName := "o1" }] } }

/-- The Secret `createOrUpdateSecret` derives from `specNamedTarget`. -/
def secretOfSpecNamedTarget : Secret :=
  { Name := "spec", Namespace := "ns",
    OwnerReferences := [{ APIVersion := "g/v1", Kind := "KeyvaultSecret", Name := "spec", UID := "u1",
                          Controller := some true, BlockOwnerDeletion := some true }],
    Data := [("o1", "v1")] }

/-! ## The watch handlers and the processing of an item (`controller.go`) -/

/-- The object of a notification, an `interface{}`: a KeyvaultSecret, a
`cache.DeletedFinalStateUnknown` with its key, a `cache.ExplicitKey`, or a
value without object metadata. -/
inductive Obj
  | keyvaultSecret (k : KeyvaultSecret)
  | deletedFinalStateUnknown (key : String)
  | explicitKey (key : String)
  | other
  deriving DecidableEq, Repr

/-- The key `namespace/name` of a KeyvaultSecret, and `name` alone when the
namespace is empty. -/
def KeyvaultSecret.key (k : KeyvaultSecret) : String :=
  if k.Namespace.length > 0 then k.Namespace ++ "/" ++ k.Name else k.Name

/-- The function `cache.MetaNamespaceKeyFunc`. -/
def MetaNamespaceKeyFunc : Obj → Except GoError String
  | .explicitKey key => .ok key
  | .keyvaultSecret k => .ok k.key
  | _ => .error (Errorf "object has no meta")

/-- The function `cache.DeletionHandlingMetaNamespaceKeyFunc`. -/
def DeletionHandlingMetaNamespaceKeyFunc : Obj → Except GoError String
  | .deletedFinalStateUnknown key => .ok key
  | obj => MetaNamespaceKeyFunc obj

/-- The method `enqueueKeyvaultSecret`: the calls made. -/
def Controller.enqueueKeyvaultSecret (obj : Obj) : List Call :=
  match MetaNamespaceKeyFunc obj with
  | .error _ => [.HandleError]
  | .ok key => [.AddRateLimited key]

/-- The handler `AddFunc` of `setupWatches`: the calls made. -/
def setupWatches.AddFunc (obj : Obj) : List Call :=
  match MetaNamespaceKeyFunc obj with
  | .error _ => [.HandleError]
  | .ok key => [.AddRateLimited key]

/-- The handler `UpdateFunc` of `setupWatches`: the calls made, and `none` when
a type assertion to `*KeyvaultSecret` fails. -/
def setupWatches.UpdateFunc (old new : Obj) : Option (List Call) :=
  match old, new with
  | .keyvaultSecret oldObj, .keyvaultSecret newObj =>
    if oldObj.ResourceVersion != newObj.ResourceVersion then
      some (Controller.enqueueKeyvaultSecret new)
    else some []
  | _, _ => none

/-- The handler `DeleteFunc` of `setupWatches`: the calls made. -/
def setupWatches.DeleteFunc (obj : Obj) : List Call :=
  match DeletionHandlingMetaNamespaceKeyFunc obj with
  | .error _ => [.HandleError]
  | .ok key => [.AddRateLimited key]

/-- The single quote. -/
def squote : String := String.mk [Char.ofNat 39]

/-- The method `processItem`: the error returned and the calls made, the
deferred `Done` last. -/
def Controller.processItem (SchemeGroupVersion : GroupVersion) (c : Controller) (obj : Item) :
    Option GoError × List Call :=
  match obj with
  | .other _ => (none, [.Forget obj, .HandleError, .Done obj])
  | .key key =>
    match c.secretHandler SchemeGroupVersion key with
    | (some err, calls) =>
      (some (Errorf ("error syncing " ++ squote ++ key ++ squote ++ ": " ++ err.Error ++ ", requeuing")),
        calls ++ [.AddRateLimited key, .Done obj])
    | (none, calls) => (none, calls ++ [.Forget obj, .Done obj])

/-- A controller over `storeK1` whose lister has the specification `spec` in
`ns` and fails otherwise, with an error that is not NotFound for `ns/broken`. -/
def controllerListing : Controller :=
  { kubeclientset := { Update := fun _ _ => none, Create := fun _ _ => none },
    keyvaultClient := storeK1,
    keyvaultSecretsLister := fun ns name =>
      if ns = "ns" ∧ name = "spec" then
        .ok { Name := "spec", Namespace := "ns",
              Spec := { Items := [{ KeyvaultName := "k1", KubernetesName := "o1" }] } }
      else if name = "broken" then .error { text := "cache not ready", notFound := false }
      else .error { text := "not found", notFound := true } }

/-! ## More predicates and sample data of the statements -/

/-- What a valid entry resolves to: the rendering of its template for a
template entry, the answer of the store for a direct entry. -/
def SecretConverter.entryValue (c : SecretConverter) (item : KeyvaultSecretEntry) :
    Except GoError String :=
  if item.IsTemplateEntry then (c.processTemplate item).1
  else c.storeClient.GetSecretValueForVersion item.KeyvaultName item.KeyvaultVersion

/-- Two direct entries for the same output key `o`. -/
def itemsSameKey : List KeyvaultSecretEntry :=
  [{ KeyvaultName := "k1", KubernetesName := "o" }, { KeyvaultName := "k2", KubernetesName := "o" }]

/-- The entries of `itemsSameKey` in the other order. -/
def itemsSameKeySwapped : List KeyvaultSecretEntry :=
  [{ KeyvaultName := "k2", KubernetesName := "o" }, { KeyvaultName := "k1", KubernetesName := "o" }]

/-! ## The work queue (modelled from the spec) -/

/-- Modelled from the spec: the work queue of the controller, which
`NewController` takes from the library (`workqueue.NewNamedRateLimitingQueue`)
and whose code is not under `src/`. §3 (WorkItem) and §4.1 give its contract:
at most one pending item per identity, `enqueue` a no-op on a pending identity,
`dequeue` handing out the oldest pending item, re-enqueue after a delay, and a
shutdown that stops admission; §5 adds that an identity is in flight at most
once. The state keeps the pending items, oldest first (`queue`), the items that
need processing (`dirty`), the items in flight (`processing`), the items
enqueued with a delay that is not over yet (`waiting`), and the shutdown flag. -/
structure WorkQueue where
  queue : List Item := []
  dirty : List Item := []
  processing : List Item := []
  waiting : List Item := []
  shuttingDown : Bool := false
  deriving DecidableEq, Repr

/-- Modelled from the spec: the admission of an item whose delay, if any, is
over (`Add`, absent from `src/`): nothing after shutdown, a no-op on an item
that already needs processing, and an item in flight is not made pending until
it is done. -/
def WorkQueue.Add (q : WorkQueue) (item : Item) : WorkQueue :=
  if q.shuttingDown then q
  else if item ∈ q.dirty then q
  else if item ∈ q.processing then { q with dirty := q.dirty ++ [item] }
  else { q with dirty := q.dirty ++ [item], queue := q.queue ++ [item] }

/-- Modelled from the spec: `enqueue` and `ack_failure` (`AddRateLimited`,
absent from `src/`): the item waits for a delay chosen by the back-off policy,
which is positive, and an item that waits already is not recorded twice. -/
def WorkQueue.AddRateLimited (q : WorkQueue) (item : Item) : WorkQueue :=
  if q.shuttingDown then q
  else if item ∈ q.waiting then q
  else { q with waiting := q.waiting ++ [item] }

/-- Modelled from the spec: the end of the delay of a waiting item (the timer
of the queue, absent from `src/`): the item is admitted. -/
def WorkQueue.elapse (q : WorkQueue) (item : Item) : WorkQueue :=
  if item ∈ q.waiting then
    WorkQueue.Add { q with waiting := q.waiting.filter (fun x => x != item) } item
  else q

/-- Modelled from the spec: the end of all delays (absent from `src/`): the
waiting items are admitted, oldest first. -/
def WorkQueue.elapseAll (q : WorkQueue) : WorkQueue :=
  q.waiting.foldl WorkQueue.Add { q with waiting := [] }

/-- What `dequeue` answers: an item and the queue after it, or that the queue
is shut down, or nothing yet (the caller blocks). -/
inductive GetResult
  | item (x : Item) (q : WorkQueue)
  | shutdown
  | blocks
  deriving DecidableEq, Repr

/-- Modelled from the spec: `dequeue` (`Get`, absent from `src/`): the oldest
pending item, which is then in flight and no longer needs processing. -/
def WorkQueue.Get (q : WorkQueue) : GetResult :=
  match q.queue with
  | [] => if q.shuttingDown then .shutdown else .blocks
  | item :: rest =>
    .item item { q with queue := rest,
                        processing := item :: q.processing,
                        dirty := q.dirty.filter (fun x => x != item) }

/-- Modelled from the spec: the end of the processing of an item (`Done`,
absent from `src/`): the item is no longer in flight, and is pending again when
it was enqueued while in flight. -/
def WorkQueue.Done (q : WorkQueue) (item : Item) : WorkQueue :=
  if item ∈ q.dirty then
    { q with processing := q.processing.filter (fun x => x != item), queue := q.queue ++ [item] }
  else { q with processing := q.processing.filter (fun x => x != item) }

/-- Modelled from the spec: the shutdown of the queue (`ShutDown`, absent from
`src/`). -/
def WorkQueue.ShutDown (q : WorkQueue) : WorkQueue := { q with shuttingDown := true }

/-- The items that `Get` hands out, in order, in at most `fuel` calls, until
it has none to hand out. -/
def WorkQueue.getAll : Nat → WorkQueue → List Item
  | 0, _ => []
  | fuel + 1, q =>
    match q.Get with
    | .item x q' => x :: WorkQueue.getAll fuel q'
    | _ => []

/-- The states of the queue that its operations reach from the empty queue:
no item is pending twice, a pending item needs processing and is not in
flight, and an item that needs processing is pending or in flight. -/
def WorkQueue.WellFormed (q : WorkQueue) : Prop :=
  q.queue.Nodup ∧ (∀ x ∈ q.queue, x ∈ q.dirty) ∧ (∀ x ∈ q.queue, x ∉ q.processing) ∧
  (∀ x ∈ q.dirty, x ∈ q.queue ∨ x ∈ q.processing)

/-! ## Template texts and their parse errors -/

/-- The error, if any, that the parsing of a template text ends with. -/
def parseError (funcs : FuncMap) (text : String) : Option TemplateError :=
  match lexRun funcs { mode := .text false, nodes := [], toks := [], buf := [] } text.data with
  | .error e => some e
  | .ok st =>
    match lexFinish st with
    | .error e => some e
    | .ok _ => none

/-- The `FuncMap` that `getTemplate` gives the parser. -/
def SecretConverter.templateFuncMap (c : SecretConverter) : FuncMap :=
  [("secretValue", .unary c.templateFuncSecretValue),
   ("secretValueForVersion", .binary c.templateFuncSecretValueForVersion)]

/-- The string literals of a call, each in double quotes and followed by a blank. -/
def argsText : List String → List Char
  | [] => []
  | a :: rest => dquote :: a.data ++ [dquote, ' '] ++ argsText rest

/-- The template text of one call of the function `fn` to string literals:
`[[ fn "a" "b" ]]`. -/
def callTemplate (fn : String) (args : List String) : String :=
  String.mk ("[[ ".data ++ fn.data ++ [' '] ++ argsText args ++ "]]".data)

/-- A name the lexer reads as one identifier: a letter or an underscore, then
letters, digits and underscores. -/
def isIdentifier (fn : String) : Bool :=
  match fn.data with
  | [] => false
  | c :: rest => isAlpha c && rest.all isAlphaNumeric

/-- A converter over `storeEcho` with the single template entry `[[ unknownFunc "k1" ]]`. -/
def converterUnknownFunc : SecretConverter :=
  { keyvaultSecret :=
      { Name := "spec", Namespace := "ns",
        Spec := { Items := [{ KubernetesName := "o1", SecretTemplate := "[[ unknownFunc \"k1\" ]]" }] } },
    storeClient := storeEcho }

/-- A converter over `storeEcho` with a single template entry whose action is not closed. -/
def converterUnclosed : SecretConverter :=
  { keyvaultSecret :=
      { Name := "spec", Namespace := "ns",
        Spec := { Items := [{ KubernetesName := "o1", SecretTemplate := "[[ secretValue \"k1\"" }] } },
    storeClient := storeEcho }

/-! # Properties -/

/-! ## Failure of an entry -/

theorem IsValid_error_of_false (entry : KeyvaultSecretEntry) (h : entry.IsValid.1 = false) :
    ∃ err, entry.IsValid.2 = some err := by
  unfold KeyvaultSecretEntry.IsValid at h ⊢
  split
  · exact ⟨_, rfl⟩
  · rename_i hc
    simp [hc] at h

theorem getK8sSecretLoop_error_of_entryFails (c : SecretConverter) (items : List KeyvaultSecretEntry) :
    ∀ (secret : Secret), (∃ item ∈ items, c.entryFails item) →
      ∃ err, (c.getK8sSecretLoop items secret).1.2 = some err := by
  induction items with
  | nil => intro _ h; obtain ⟨_, hm, _⟩ := h; cases hm
  | cons hd tl ih =>
    intro secret h
    unfold SecretConverter.getK8sSecretLoop
    by_cases hv : hd.IsValid.1 = false
    · simp only [hv, Bool.not_false, if_true]
      exact IsValid_error_of_false hd hv
    · have hv' : hd.IsValid.1 = true := by simpa using hv
      have htl : (∃ item ∈ tl, c.entryFails item) ∨ c.entryFails hd := by
        obtain ⟨item, hm, hf⟩ := h
        rcases List.mem_cons.mp hm with rfl | hm'
        · exact Or.inr hf
        · exact Or.inl ⟨item, hm', hf⟩
      simp only [hv', Bool.not_true, Bool.false_eq_true, if_false]
      by_cases ht : hd.IsTemplateEntry = true
      · simp only [ht, if_true]
        rcases hp : c.processTemplate hd with ⟨r, calls⟩
        cases r with
        | error err => exact ⟨err, rfl⟩
        | ok parsed =>
          simp only
          rcases htl with htl | hf
          · exact ih _ htl
          · rcases hf with hf | ⟨hf, _⟩ | ⟨_, err, hf⟩
            · simp [hv'] at hf
            · simp [ht] at hf
            · simp [hp] at hf
      · have ht' : hd.IsTemplateEntry = false := by simpa using ht
        simp only [ht', Bool.false_eq_true, if_false]
        cases hs : c.storeClient.GetSecretValueForVersion hd.KeyvaultName hd.KeyvaultVersion with
        | error err => exact ⟨err, rfl⟩
        | ok v =>
          simp only
          rcases htl with htl | hf
          · exact ih _ htl
          · rcases hf with hf | ⟨_, err, hf⟩ | ⟨hf, _⟩
            · simp [hv'] at hf
            · simp [hs] at hf
            · simp [ht'] at hf

theorem evalCall_isStore (funcs : FuncMap) (h : funcs.storeOnly) (fn : String) (f : TemplateFunc)
    (hf : funcs.find fn = some f) (args : List String) (v : String) (calls : List Call)
    (he : evalCall fn f args = .ok (v, calls)) : ∀ call ∈ calls, call.isStore = true := by
  have hs := h fn f hf
  unfold evalCall at he
  split at he
  · rename_i g a
    injection he with he
    have := hs a
    rw [he] at this
    exact this
  · cases he
  · rename_i g a b
    injection he with he
    have := hs a b
    rw [he] at this
    exact this
  · cases he

theorem execNodes_isStore (funcs : FuncMap) (h : funcs.storeOnly) (nodes : List Node) :
    ∀ (out : String), ∀ call ∈ (execNodes funcs nodes out).2, call.isStore = true := by
  induction nodes with
  | nil => intro out call hc; simp [execNodes] at hc
  | cons node rest ih =>
    intro out call hc
    cases node with
    | text s => exact ih _ call (by simpa [execNodes] using hc)
    | call fn args =>
      unfold execNodes at hc
      cases hf : funcs.find fn with
      | none => simp [hf] at hc
      | some f =>
        simp only [hf] at hc
        cases he : evalCall fn f args with
        | error e => simp [he] at hc
        | ok r =>
          obtain ⟨v, calls⟩ := r
          simp only [he, List.mem_append] at hc
          rcases hc with hc | hc
          · exact evalCall_isStore funcs h fn f hf args v calls he call hc
          · exact ih _ call hc

theorem templateFuncs_storeOnly (c : SecretConverter) :
    FuncMap.storeOnly
      [("secretValue", .unary c.templateFuncSecretValue),
       ("secretValueForVersion", .binary c.templateFuncSecretValueForVersion)] := by
  have hb : ∀ a b, ∀ call ∈ (c.templateFuncSecretValueForVersion a b).2, call.isStore = true := by
    intro a b call hc
    unfold SecretConverter.templateFuncSecretValueForVersion at hc
    split at hc <;> simp at hc <;> subst hc <;> rfl
  intro name f hf
  simp only [FuncMap.find] at hf
  split at hf
  · injection hf with hf; subst hf
    intro a; exact hb a ""
  · split at hf
    · injection hf with hf; subst hf
      exact hb
    · cases hf

theorem Parse_funcs (name : String) (funcs : FuncMap) (text : String) (t : Template)
    (h : Parse name funcs text = .ok t) : t.funcs = funcs := by
  unfold Parse at h
  split at h
  · cases h
  · split at h
    · cases h
    · injection h with h; subst h; rfl

theorem processTemplate_isStore (c : SecretConverter) (item : KeyvaultSecretEntry) :
    ∀ call ∈ (c.processTemplate item).2, call.isStore = true := by
  intro call hc
  unfold SecretConverter.processTemplate at hc
  cases ht : c.getTemplate item with
  | error err => simp [ht] at hc
  | ok t =>
    have hfun := Parse_funcs _ _ _ t ht
    have hex := execNodes_isStore t.funcs (hfun ▸ templateFuncs_storeOnly c) t.nodes "" call
    simp only [ht] at hc
    unfold Template.Execute at hc
    split at hc <;> rename_i heq <;> (simp only at hc; apply hex; rw [heq]; exact hc)

theorem getK8sSecretLoop_isStore (c : SecretConverter) (items : List KeyvaultSecretEntry) :
    ∀ (secret : Secret), ∀ call ∈ (c.getK8sSecretLoop items secret).2, call.isStore = true := by
  induction items with
  | nil => intro secret call hc; simp [SecretConverter.getK8sSecretLoop] at hc
  | cons hd tl ih =>
    intro secret call hc
    unfold SecretConverter.getK8sSecretLoop at hc
    split at hc
    · simp at hc
    · split at hc
      · have hp := processTemplate_isStore c hd
        split at hc <;> rename_i heq <;> rw [heq] at hp
        · exact hp call hc
        · simp only [List.mem_append] at hc
          rcases hc with hc | hc
          · exact hp call hc
          · exact ih _ call hc
      · split at hc
        · simp at hc; subst hc; rfl
        · simp only [List.mem_cons] at hc
          rcases hc with hc | hc
          · subst hc; rfl
          · exact ih _ call hc

theorem isStore_not_write (call : Call) (h : call.isStore = true) :
    call.isUpdate = false ∧ call.isCreate = false := by
  cases call <;> simp [Call.isStore] at h <;> exact ⟨rfl, rfl⟩

/-- C1: when some entry of the specification fails (it is invalid, or it is a
direct entry the store answers with an error, or it is a template entry whose
rendering fails), `createOrUpdateSecret` returns the error of `getK8sSecret`,
which is not nil, and makes no `Update` and no `Create` call. -/
theorem createOrUpdateSecret_entry_failure_writes_nothing (gv : GroupVersion) (c : Controller)
    (kvs : KeyvaultSecret) (item : KeyvaultSecretEntry) (hmem : item ∈ kvs.Spec.Items)
    (hfail : SecretConverter.entryFails { keyvaultSecret := kvs, storeClient := c.keyvaultClient } item) :
    (∃ err, (c.createOrUpdateSecret gv kvs).1 = some err ∧
      (SecretConverter.getK8sSecret gv { keyvaultSecret := kvs, storeClient := c.keyvaultClient }).1.2 = some err) ∧
    ∀ call ∈ (c.createOrUpdateSecret gv kvs).2, call.isUpdate = false ∧ call.isCreate = false := by
  obtain ⟨err, herr⟩ := getK8sSecretLoop_error_of_entryFails
    { keyvaultSecret := kvs, storeClient := c.keyvaultClient } kvs.Spec.Items
    (SecretConverter.newSecret gv { keyvaultSecret := kvs, storeClient := c.keyvaultClient })
    ⟨item, hmem, hfail⟩
  have hstore := getK8sSecretLoop_isStore
    { keyvaultSecret := kvs, storeClient := c.keyvaultClient } kvs.Spec.Items
    (SecretConverter.newSecret gv { keyvaultSecret := kvs, storeClient := c.keyvaultClient })
  unfold Controller.createOrUpdateSecret SecretConverter.getK8sSecret
  simp only
  rcases hr : SecretConverter.getK8sSecretLoop { keyvaultSecret := kvs, storeClient := c.keyvaultClient }
    kvs.Spec.Items (SecretConverter.newSecret gv { keyvaultSecret := kvs, storeClient := c.keyvaultClient })
    with ⟨⟨secret, e⟩, calls⟩
  rw [hr] at herr hstore
  simp only at herr
  subst herr
  exact ⟨⟨err, rfl, rfl⟩, fun call hc => isStore_not_write call (hstore call hc)⟩

/-- Two entries, the first resolving to `v1` and the second invalid: an error, and no write. -/
theorem createOrUpdateSecret_entry_failure_writes_nothing_witness :
    (SecretConverter.getK8sSecret ⟨"g", "v1"⟩ { keyvaultSecret := specValidThenInvalid, storeClient := storeK1 }).1.1.Data
      = [("o1", "v1")] ∧
    (∃ err, (controllerK1.createOrUpdateSecret ⟨"g", "v1"⟩ specValidThenInvalid).1 = some err ∧
      (SecretConverter.getK8sSecret ⟨"g", "v1"⟩ { keyvaultSecret := specValidThenInvalid, storeClient := storeK1 }).1.2 = some err) ∧
    ∀ call ∈ (controllerK1.createOrUpdateSecret ⟨"g", "v1"⟩ specValidThenInvalid).2, call.isUpdate = false ∧ call.isCreate = false :=
  ⟨by decide, createOrUpdateSecret_entry_failure_writes_nothing ⟨"g", "v1"⟩ controllerK1 specValidThenInvalid
    { KeyvaultName := "k2" } (by decide) (Or.inl (by decide))⟩

/-! ## Direct entries -/

theorem DataMap.get_set_self (m : DataMap) (k v : String) : (DataMap.set m k v).get k = some v := by
  induction m with
  | nil => simp [DataMap.set, DataMap.get]
  | cons p rest ih =>
    obtain ⟨k', v'⟩ := p
    unfold DataMap.set
    by_cases h : k' = k
    · simp [h, DataMap.get]
    · simp [h, DataMap.get, ih]

theorem DataMap.get_set_ne (m : DataMap) (k v k' : String) (hne : k' ≠ k) :
    (DataMap.set m k v).get k' = m.get k' := by
  induction m with
  | nil => simp [DataMap.set, DataMap.get, Ne.symm hne]
  | cons p rest ih =>
    obtain ⟨k₀, v₀⟩ := p
    unfold DataMap.set
    by_cases h : k₀ = k
    · subst h
      simp [DataMap.get, Ne.symm hne]
    · by_cases h' : k₀ = k'
      · subst h'
        simp [h, DataMap.get]
      · simp [h, h', DataMap.get, ih]

theorem IsValid_of_fields (entry : KeyvaultSecretEntry) (hk : entry.KubernetesName ≠ "")
    (hs : entry.KeyvaultName ≠ "" ∨ entry.SecretTemplate ≠ "") : entry.IsValid.1 = true := by
  unfold KeyvaultSecretEntry.IsValid
  rcases hs with hs | hs <;> simp [hk, hs]

theorem getK8sSecretLoop_direct (c : SecretConverter) (items : List KeyvaultSecretEntry) :
    ∀ (secret : Secret),
      (∀ item ∈ items, item.SecretTemplate = "" ∧ item.KeyvaultName ≠ "" ∧ item.KubernetesName ≠ "") →
      (items.map (fun item => item.KubernetesName)).Nodup →
      (∀ item ∈ items, ∃ v,
        c.storeClient.GetSecretValueForVersion item.KeyvaultName item.KeyvaultVersion = .ok v) →
      (c.getK8sSecretLoop items secret).1.2 = none ∧
      (c.getK8sSecretLoop items secret).2 =
        items.map (fun item => Call.GetSecretValueForVersion item.KeyvaultName item.KeyvaultVersion) ∧
      (∀ item ∈ items, ∃ v,
        c.storeClient.GetSecretValueForVersion item.KeyvaultName item.KeyvaultVersion = .ok v ∧
        (c.getK8sSecretLoop items secret).1.1.Data.get item.KubernetesName = some v) ∧
      (∀ k, k ∉ items.map (fun item => item.KubernetesName) →
        (c.getK8sSecretLoop items secret).1.1.Data.get k = secret.Data.get k) := by
  induction items with
  | nil => intro secret _ _ _; simp [SecretConverter.getK8sSecretLoop]
  | cons hd tl ih =>
    intro secret hvalid hnodup hprov
    obtain ⟨ht, hn, hk⟩ := hvalid hd (List.mem_cons_self _ _)
    obtain ⟨v, hv⟩ := hprov hd (List.mem_cons_self _ _)
    have hval : hd.IsValid.1 = true := IsValid_of_fields hd hk (Or.inl hn)
    have htmpl : hd.IsTemplateEntry = false := by simp [KeyvaultSecretEntry.IsTemplateEntry, ht]
    rw [List.map_cons, List.nodup_cons] at hnodup
    obtain ⟨hnotin, hnodup'⟩ := hnodup
    have hstep : c.getK8sSecretLoop (hd :: tl) secret =
        ((c.getK8sSecretLoop tl { secret with Data := secret.Data.set hd.KubernetesName v }).1,
          Call.GetSecretValueForVersion hd.KeyvaultName hd.KeyvaultVersion ::
            (c.getK8sSecretLoop tl { secret with Data := secret.Data.set hd.KubernetesName v }).2) := by
      rw [SecretConverter.getK8sSecretLoop]
      simp [hval, htmpl, hv]
    obtain ⟨h1, h2, h3, h4⟩ := ih { secret with Data := secret.Data.set hd.KubernetesName v }
      (fun item hm => hvalid item (List.mem_cons_of_mem _ hm)) hnodup'
      (fun item hm => hprov item (List.mem_cons_of_mem _ hm))
    rw [hstep]
    refine ⟨h1, by simp [h2], ?_, ?_⟩
    · intro item hm
      rcases List.mem_cons.mp hm with rfl | hm'
      · refine ⟨v, hv, ?_⟩
        simp only
        rw [h4 _ hnotin]
        exact DataMap.get_set_self _ _ _
      · exact h3 item hm'
    · intro k hkn
      rw [List.map_cons, List.mem_cons, not_or] at hkn
      simp only
      rw [h4 k hkn.2]
      exact DataMap.get_set_ne _ _ _ _ hkn.1

/-- C2: for a specification whose items are all valid direct entries (template
empty, vault name and output key not empty) with pairwise distinct output keys,
and a store whose `GetSecretValueForVersion` answers each entry's vault name and
vault version with a value, `getK8sSecret` returns no error, `Data` maps each
entry's output key to the value the store gave for that entry's name and
version, and the store is called once per entry, in order, with the entry's own
version string (the empty one included). -/
theorem getK8sSecret_direct_entries (gv : GroupVersion) (c : SecretConverter)
    (hvalid : ∀ item ∈ c.keyvaultSecret.Spec.Items,
      item.SecretTemplate = "" ∧ item.KeyvaultName ≠ "" ∧ item.KubernetesName ≠ "")
    (hdistinct : (c.keyvaultSecret.Spec.Items.map (fun item => item.KubernetesName)).Nodup)
    (hstore : ∀ item ∈ c.keyvaultSecret.Spec.Items, ∃ v,
      c.storeClient.GetSecretValueForVersion item.KeyvaultName item.KeyvaultVersion = .ok v) :
    (c.getK8sSecret gv).1.2 = none ∧
    (∀ item ∈ c.keyvaultSecret.Spec.Items, ∃ v,
      c.storeClient.GetSecretValueForVersion item.KeyvaultName item.KeyvaultVersion = .ok v ∧
      (c.getK8sSecret gv).1.1.Data.get item.KubernetesName = some v) ∧
    (c.getK8sSecret gv).2 = c.keyvaultSecret.Spec.Items.map
      (fun item => Call.GetSecretValueForVersion item.KeyvaultName item.KeyvaultVersion) := by
  obtain ⟨h1, h2, h3, _⟩ := getK8sSecretLoop_direct c c.keyvaultSecret.Spec.Items
    (c.newSecret gv) hvalid hdistinct hstore
  exact ⟨h1, h3, h2⟩

/-- Two direct entries, one at version `v2` and one at the latest version. -/
theorem getK8sSecret_direct_entries_witness :
    (converterTwoDirect.getK8sSecret ⟨"g", "v1"⟩).1.1.Data = [("o1", "k1@v2"), ("o2", "k2@")] ∧
    ((converterTwoDirect.getK8sSecret ⟨"g", "v1"⟩).1.2 = none ∧
    (∀ item ∈ converterTwoDirect.keyvaultSecret.Spec.Items, ∃ v,
      converterTwoDirect.storeClient.GetSecretValueForVersion item.KeyvaultName item.KeyvaultVersion = .ok v ∧
      (converterTwoDirect.getK8sSecret ⟨"g", "v1"⟩).1.1.Data.get item.KubernetesName = some v) ∧
    (converterTwoDirect.getK8sSecret ⟨"g", "v1"⟩).2 = converterTwoDirect.keyvaultSecret.Spec.Items.map
      (fun item => Call.GetSecretValueForVersion item.KeyvaultName item.KeyvaultVersion)) :=
  ⟨by decide, getK8sSecret_direct_entries ⟨"g", "v1"⟩ converterTwoDirect (by decide) (by decide)
    (by intro item hm; exact ⟨_, rfl⟩)⟩

/-! ## Template entries -/

theorem lexRun_append (funcs : FuncMap) (a b : List Char) :
    ∀ (st : LexState), lexRun funcs st (a ++ b) =
      match lexRun funcs st a with
      | .ok st' => lexRun funcs st' b
      | .error e => .error e := by
  induction a with
  | nil => intro st; rfl
  | cons ch rest ih =>
    intro st
    simp only [List.cons_append, lexRun]
    cases lexStep funcs st ch with
    | error e => rfl
    | ok st' => exact ih st'

theorem lexRun_quote_body (funcs : FuncMap) (nodes : List Node) (toks : List Tok) (body : List Char)
    (hplain : ∀ ch ∈ body, ch ≠ dquote ∧ ch ≠ backslash ∧ ch ≠ '\n') :
    ∀ (buf : List Char),
      lexRun funcs { mode := .quote, nodes := nodes, toks := toks, buf := buf } body =
        .ok { mode := .quote, nodes := nodes, toks := toks, buf := buf ++ body } := by
  induction body with
  | nil => intro buf; simp [lexRun]
  | cons ch rest ih =>
    intro buf
    obtain ⟨h1, h2, h3⟩ := hplain ch (List.mem_cons_self _ _)
    have hstep : lexStep funcs { mode := .quote, nodes := nodes, toks := toks, buf := buf } ch =
        .ok { mode := .quote, nodes := nodes, toks := toks, buf := buf ++ [ch] } := by
      simp [lexStep, h1, h2, h3]
    rw [lexRun, hstep]
    simp only
    rw [ih (fun ch' hm => hplain ch' (List.mem_cons_of_mem _ hm))]
    simp

theorem lexRun_secretValue_prefix (funcs : FuncMap) :
    lexRun funcs { mode := .text false, nodes := [], toks := [], buf := [] }
      ("[[ secretValue ".data ++ [dquote]) =
    .ok { mode := .quote, nodes := [], toks := [.ident "secretValue"], buf := [] } := by
  rfl

theorem getTemplate_secretValue (c : SecretConverter) (item : KeyvaultSecretEntry) (k : String)
    (hplain : plainLiteral k) (htext : item.SecretTemplate = secretValueTemplate k) :
    ∃ t, c.getTemplate item = .ok t ∧ t.nodes = [.call "secretValue" [k]] ∧
      t.funcs = [("secretValue", .unary c.templateFuncSecretValue),
                 ("secretValueForVersion", .binary c.templateFuncSecretValueForVersion)] := by
  unfold SecretConverter.getTemplate Parse
  rw [htext]
  unfold secretValueTemplate
  simp only [List.append_assoc]
  rw [← List.append_assoc, lexRun_append, lexRun_secretValue_prefix]
  simp only
  rw [lexRun_append, lexRun_quote_body _ _ _ _ hplain]
  simp only [List.nil_append]
  exact ⟨_, rfl, rfl, rfl⟩

theorem processTemplate_secretValue (c : SecretConverter) (item : KeyvaultSecretEntry) (k : String)
    (hplain : plainLiteral k) (htext : item.SecretTemplate = secretValueTemplate k) :
    c.processTemplate item =
      (.ok (htmlEscaper (c.templateFuncSecretValue k).1), [.GetSecretValue k]) := by
  obtain ⟨t, ht, hnodes, hfuncs⟩ := getTemplate_secretValue c item k hplain htext
  have hcalls : (c.templateFuncSecretValue k).2 = [.GetSecretValue k] := by
    unfold SecretConverter.templateFuncSecretValue SecretConverter.templateFuncSecretValueForVersion
    split <;> rfl
  have hexec : t.Execute = (.ok (htmlEscaper (c.templateFuncSecretValue k).1), [.GetSecretValue k]) := by
    unfold Template.Execute
    rw [hnodes, hfuncs]
    simp [execNodes, FuncMap.find, evalCall, hcalls]
  unfold SecretConverter.processTemplate
  rw [ht]
  simp only [hexec]

theorem secretValueTemplate_ne_empty (k : String) : secretValueTemplate k ≠ "" := by
  intro h
  have := congrArg String.data h
  simp [secretValueTemplate] at this

theorem getK8sSecret_single_secretValue (gv : GroupVersion) (c : SecretConverter) (k o : String)
    (hitems : c.keyvaultSecret.Spec.Items =
      [{ KubernetesName := o, SecretTemplate := secretValueTemplate k }])
    (hplain : plainLiteral k) (ho : o ≠ "") :
    c.getK8sSecret gv =
      (({ c.newSecret gv with Data := [(o, htmlEscaper (c.templateFuncSecretValue k).1)] }, none),
        [.GetSecretValue k]) := by
  have hval : KeyvaultSecretEntry.IsValid { KubernetesName := o, SecretTemplate := secretValueTemplate k } =
      (true, none) := by
    simp [KeyvaultSecretEntry.IsValid, ho, secretValueTemplate_ne_empty]
  have htmpl : KeyvaultSecretEntry.IsTemplateEntry
      { KubernetesName := o, SecretTemplate := secretValueTemplate k } = true := by
    simp [KeyvaultSecretEntry.IsTemplateEntry, secretValueTemplate_ne_empty]
  unfold SecretConverter.getK8sSecret
  rw [hitems]
  unfold SecretConverter.getK8sSecretLoop
  rw [hval, htmpl, processTemplate_secretValue c _ k hplain rfl]
  simp [SecretConverter.getK8sSecretLoop, DataMap.set, SecretConverter.newSecret]

/-! ## Template functions -/

/-- C3, at the input where the code departs from it: the store returns `a+b&c`
for `k` at the latest version, the single entry has the template
`[[ secretValue "k" ]]` and the output key `o1`; `getK8sSecret` returns no
error and `Data["o1"]` is `a&#43;b&amp;c`, not the value of the store. -/
theorem getK8sSecret_template_value_html_escaped :
    converterSpecial.storeClient.GetSecretValue "k" = .ok "a+b&c" ∧
    converterSpecial.storeClient.GetSecretValueForVersion "k" "" = .ok "a+b&c" ∧
    (converterSpecial.getK8sSecret ⟨"g", "v1"⟩).1.2 = none ∧
    (converterSpecial.getK8sSecret ⟨"g", "v1"⟩).1.1.Data.get "o1" = some "a&#43;b&amp;c" ∧
    (converterSpecial.getK8sSecret ⟨"g", "v1"⟩).1.1.Data.get "o1" ≠ some "a+b&c" := by
  refine ⟨rfl, rfl, ?_, ?_, ?_⟩ <;> decide

/-- C4: for every store, name and version, the two template functions return
a string and nothing else: when the store's `GetSecretValue name` succeeds,
the value it gave, and when it fails, the text of its error, in both cases
after that one call of the store; and, for every store that fails for `k`,
materializing the single template entry `[[ secretValue "k" ]]` returns no
error, the text of the error, HTML-escaped, being the value of the output key. -/
theorem templateFuncs_return_value_or_error_text :
    (∀ (c : SecretConverter) (name version : String),
      (∀ secretValue, c.storeClient.GetSecretValue name = .ok secretValue →
        c.templateFuncSecretValueForVersion name version = (secretValue, [.GetSecretValue name]) ∧
        c.templateFuncSecretValue name = (secretValue, [.GetSecretValue name])) ∧
      (∀ err, c.storeClient.GetSecretValue name = .error err →
        c.templateFuncSecretValueForVersion name version = (err.Error, [.GetSecretValue name]) ∧
        c.templateFuncSecretValue name = (err.Error, [.GetSecretValue name]))) ∧
    (∀ (gv : GroupVersion) (c : SecretConverter) (k o : String) (err : GoError),
      c.keyvaultSecret.Spec.Items =
        [{ KubernetesName := o, SecretTemplate := secretValueTemplate k }] →
      plainLiteral k → o ≠ "" →
      c.storeClient.GetSecretValue k = .error err →
      (c.getK8sSecret gv).1.2 = none ∧
      (c.getK8sSecret gv).1.1.Data.get o = some (htmlEscaper err.Error)) := by
  have hok : ∀ (c : SecretConverter) (n v secretValue : String),
      c.storeClient.GetSecretValue n = .ok secretValue →
      c.templateFuncSecretValueForVersion n v = (secretValue, [.GetSecretValue n]) := by
    intro c n v secretValue h
    unfold SecretConverter.templateFuncSecretValueForVersion
    rw [h]
  have herr : ∀ (c : SecretConverter) (n v : String) (err : GoError),
      c.storeClient.GetSecretValue n = .error err →
      c.templateFuncSecretValueForVersion n v = (err.Error, [.GetSecretValue n]) := by
    intro c n v err h
    unfold SecretConverter.templateFuncSecretValueForVersion
    rw [h]
  refine ⟨fun c name version => ⟨fun secretValue h => ⟨hok c name version secretValue h, ?_⟩,
    fun err h => ⟨herr c name version err h, ?_⟩⟩, ?_⟩
  · unfold SecretConverter.templateFuncSecretValue
    exact hok c name "" secretValue h
  · unfold SecretConverter.templateFuncSecretValue
    exact herr c name "" err h
  · intro gv c k o err hitems hplain ho hfail
    have hk : (c.templateFuncSecretValue k).1 = err.Error := by
      unfold SecretConverter.templateFuncSecretValue
      rw [herr c k "" err hfail]
    rw [getK8sSecret_single_secretValue gv c k o hitems hplain ho, hk]
    exact ⟨rfl, by simp [DataMap.get]⟩

/-- A store that answers: both functions return its value. A store that has no
secret: both functions return the text of its error, and the template entry
materializes with that text as its value. -/
theorem templateFuncs_return_value_or_error_text_witness :
    (converterTwoDirect.templateFuncSecretValueForVersion "k" "v2" = ("k@latest", [.GetSecretValue "k"]) ∧
      converterTwoDirect.templateFuncSecretValue "k" = ("k@latest", [.GetSecretValue "k"])) ∧
    (converterEmptyStore.templateFuncSecretValueForVersion "k" "v2" =
        ("Secret not found", [.GetSecretValue "k"]) ∧
      converterEmptyStore.templateFuncSecretValue "k" = ("Secret not found", [.GetSecretValue "k"])) ∧
    ((converterEmptyStore.getK8sSecret ⟨"g", "v1"⟩).1.2 = none ∧
      (converterEmptyStore.getK8sSecret ⟨"g", "v1"⟩).1.1.Data.get "o1" =
        some (htmlEscaper (GoError.Error (Errorf "Secret not found")))) :=
  ⟨(templateFuncs_return_value_or_error_text.1 converterTwoDirect "k" "v2").1 "k@latest" rfl,
   (templateFuncs_return_value_or_error_text.1 converterEmptyStore "k" "v2").2
     (Errorf "Secret not found") rfl,
   templateFuncs_return_value_or_error_text.2 ⟨"g", "v1"⟩ converterEmptyStore "k" "o1"
     (Errorf "Secret not found") (by decide) (by unfold plainLiteral; decide) (by decide) rfl⟩

/-! ## Template parse errors -/

theorem actionNode_congr (funcs funcs' : FuncMap)
    (h : ∀ name, (funcs.find name).isSome = (funcs'.find name).isSome) (toks : List Tok) :
    actionNode funcs toks = actionNode funcs' toks := by
  cases toks with
  | nil => rfl
  | cons tok rest =>
    cases tok with
    | str s => rfl
    | ident fn =>
      have hfn := h fn
      unfold actionNode
      cases h1 : funcs.find fn <;> cases h2 : funcs'.find fn <;> simp [h1, h2] at hfn ⊢

theorem lexStep_congr (funcs funcs' : FuncMap)
    (h : ∀ name, (funcs.find name).isSome = (funcs'.find name).isSome) (st : LexState) (ch : Char) :
    lexStep funcs st ch = lexStep funcs' st ch := by
  unfold lexStep
  rw [actionNode_congr funcs funcs' h]

theorem lexRun_congr (funcs funcs' : FuncMap)
    (h : ∀ name, (funcs.find name).isSome = (funcs'.find name).isSome) (cs : List Char) :
    ∀ (st : LexState), lexRun funcs st cs = lexRun funcs' st cs := by
  induction cs with
  | nil => intro st; rfl
  | cons ch rest ih =>
    intro st
    simp only [lexRun, lexStep_congr funcs funcs' h]
    cases lexStep funcs' st ch with
    | error e => rfl
    | ok st' => exact ih st'

theorem getTemplate_error_any_store (c c' : SecretConverter) (item : KeyvaultSecretEntry)
    (err : GoError) (h : c'.getTemplate item = .error err) : c.getTemplate item = .error err := by
  have hnames : ∀ name,
      (FuncMap.find [("secretValue", TemplateFunc.unary c.templateFuncSecretValue),
        ("secretValueForVersion", TemplateFunc.binary c.templateFuncSecretValueForVersion)] name).isSome =
      (FuncMap.find [("secretValue", TemplateFunc.unary c'.templateFuncSecretValue),
        ("secretValueForVersion", TemplateFunc.binary c'.templateFuncSecretValueForVersion)] name).isSome := by
    intro name
    simp only [FuncMap.find]
    split
    · rfl
    · split <;> rfl
  unfold SecretConverter.getTemplate Parse at h ⊢
  rw [lexRun_congr _ _ hnames]
  generalize lexRun _ _ item.SecretTemplate.data = r at h ⊢
  cases r with
  | error e => simpa using h
  | ok st =>
    simp only at h ⊢
    cases hfin : lexFinish st with
    | error e => simpa [hfin] using h
    | ok nodes => simp [hfin] at h

/-! ## Validation and versions -/

/-- C6: `IsValid` rejects an entry, with an error, exactly when its output key
is empty or both its vault name and its template are empty; an entry with an
output key, a vault name and a template is accepted; and a specification that
holds a rejected entry makes `getK8sSecret` return an error. -/
theorem IsValid_rejects_iff (gv : GroupVersion) (c : SecretConverter) (entry : KeyvaultSecretEntry) :
    (entry.IsValid.1 = false ↔
      entry.KubernetesName = "" ∨ (entry.KeyvaultName = "" ∧ entry.SecretTemplate = "")) ∧
    ((∃ err, entry.IsValid.2 = some err) ↔
      entry.KubernetesName = "" ∨ (entry.KeyvaultName = "" ∧ entry.SecretTemplate = "")) ∧
    (entry.KubernetesName ≠ "" → entry.KeyvaultName ≠ "" → entry.SecretTemplate ≠ "" →
      entry.IsValid = (true, none)) ∧
    (entry ∈ c.keyvaultSecret.Spec.Items → entry.IsValid.1 = false →
      ∃ e, (c.getK8sSecret gv).1.2 = some e) := by
  refine ⟨?_, ?_, ?_, ?_⟩
  · by_cases hk : entry.KubernetesName = "" <;> by_cases hn : entry.KeyvaultName = "" <;>
      by_cases ht : entry.SecretTemplate = "" <;> simp [KeyvaultSecretEntry.IsValid, hk, hn, ht]
  · by_cases hk : entry.KubernetesName = "" <;> by_cases hn : entry.KeyvaultName = "" <;>
      by_cases ht : entry.SecretTemplate = "" <;> simp [KeyvaultSecretEntry.IsValid, hk, hn, ht]
  · intro hk hn ht
    simp [KeyvaultSecretEntry.IsValid, hk, hn, ht]
  · intro hmem hrej
    exact getK8sSecretLoop_error_of_entryFails c _ _ ⟨entry, hmem, Or.inl hrej⟩

/-- An entry with all three fields is accepted; a specification with an entry without output key fails. -/
theorem IsValid_rejects_iff_witness :
    KeyvaultSecretEntry.IsValid { KeyvaultName := "k", KubernetesName := "o", SecretTemplate := "t" }
      = (true, none) ∧
    ∃ e, (SecretConverter.getK8sSecret ⟨"g", "v1"⟩
      { keyvaultSecret := specValidThenInvalid, storeClient := storeK1 }).1.2 = some e :=
  ⟨(IsValid_rejects_iff ⟨"g", "v1"⟩ { keyvaultSecret := specValidThenInvalid, storeClient := storeK1 }
      { KeyvaultName := "k", KubernetesName := "o", SecretTemplate := "t" }).2.2.1
      (by decide) (by decide) (by decide),
   (IsValid_rejects_iff ⟨"g", "v1"⟩ { keyvaultSecret := specValidThenInvalid, storeClient := storeK1 }
      { KeyvaultName := "k2" }).2.2.2 (by decide) (by decide)⟩

/-- C7, at the input where the code departs from it: with a store where `k`
holds `old` at `v1`, `new` at `v2` and `latest` at the latest version,
`templateFuncSecretValueForVersion` returns `latest` for both versions, by a
call of `GetSecretValue`, and the template `[[ secretValueForVersion "k" "v1" ]]`
renders to `latest`. -/
theorem templateFuncSecretValueForVersion_ignores_version :
    storeVersions.GetSecretValueForVersion "k" "v1" = .ok "old" ∧
    storeVersions.GetSecretValueForVersion "k" "v2" = .ok "new" ∧
    converterVersions.templateFuncSecretValueForVersion "k" "v1" = ("latest", [.GetSecretValue "k"]) ∧
    converterVersions.templateFuncSecretValueForVersion "k" "v2" = ("latest", [.GetSecretValue "k"]) ∧
    (converterVersions.getK8sSecret ⟨"g", "v1"⟩).1.2 = none ∧
    (converterVersions.getK8sSecret ⟨"g", "v1"⟩).1.1.Data.get "o1" = some "latest" := by
  refine ⟨rfl, rfl, rfl, rfl, ?_, ?_⟩ <;> decide

/-! ## Identity of the derived Secret -/

theorem getK8sSecretLoop_meta (c : SecretConverter) (items : List KeyvaultSecretEntry) :
    ∀ (secret : Secret),
      (c.getK8sSecretLoop items secret).1.1.Name = secret.Name ∧
      (c.getK8sSecretLoop items secret).1.1.Namespace = secret.Namespace ∧
      (c.getK8sSecretLoop items secret).1.1.OwnerReferences = secret.OwnerReferences := by
  induction items with
  | nil => intro secret; exact ⟨rfl, rfl, rfl⟩
  | cons hd tl ih =>
    intro secret
    unfold SecretConverter.getK8sSecretLoop
    split
    · exact ⟨rfl, rfl, rfl⟩
    · split
      · split
        · exact ⟨rfl, rfl, rfl⟩
        · exact ih _
      · split
        · exact ⟨rfl, rfl, rfl⟩
        · exact ih _

theorem getK8sSecretLoop_same_store (a b : KeyvaultSecret) (store : StoreClient)
    (items : List KeyvaultSecretEntry) :
    ∀ (secret : Secret),
      SecretConverter.getK8sSecretLoop { keyvaultSecret := a, storeClient := store } items secret =
      SecretConverter.getK8sSecretLoop { keyvaultSecret := b, storeClient := store } items secret := by
  induction items with
  | nil => intro secret; rfl
  | cons hd tl ih =>
    intro secret
    have hp : SecretConverter.processTemplate { keyvaultSecret := a, storeClient := store } hd =
        SecretConverter.processTemplate { keyvaultSecret := b, storeClient := store } hd := rfl
    unfold SecretConverter.getK8sSecretLoop
    rw [hp]
    simp only [ih]

theorem createOrUpdateSecret_calls (gv : GroupVersion) (c : Controller) (kvs : KeyvaultSecret) :
    ∀ call ∈ (c.createOrUpdateSecret gv kvs).2,
      call.isStore = true ∨
      call = .Update kvs.Namespace
        (SecretConverter.getK8sSecret gv { keyvaultSecret := kvs, storeClient := c.keyvaultClient }).1.1 ∨
      call = .Create kvs.Namespace
        (SecretConverter.getK8sSecret gv { keyvaultSecret := kvs, storeClient := c.keyvaultClient }).1.1 := by
  intro call hc
  have hstore := getK8sSecretLoop_isStore
    { keyvaultSecret := kvs, storeClient := c.keyvaultClient } kvs.Spec.Items
    (SecretConverter.newSecret gv { keyvaultSecret := kvs, storeClient := c.keyvaultClient })
  unfold Controller.createOrUpdateSecret at hc
  unfold SecretConverter.getK8sSecret at hc ⊢
  simp only at hc ⊢
  rcases hr : SecretConverter.getK8sSecretLoop { keyvaultSecret := kvs, storeClient := c.keyvaultClient }
    kvs.Spec.Items (SecretConverter.newSecret gv { keyvaultSecret := kvs, storeClient := c.keyvaultClient })
    with ⟨⟨secret, e⟩, calls⟩
  rw [hr] at hc hstore
  simp only at hstore ⊢
  cases e with
  | some err => exact Or.inl (hstore call hc)
  | none =>
    simp only at hc
    split at hc
    · split at hc
      · split at hc <;>
        · simp only [List.mem_append, List.mem_cons, List.mem_singleton, List.not_mem_nil, or_false] at hc
          rcases hc with hc | hc | hc
          · exact Or.inl (hstore call hc)
          · exact Or.inr (Or.inl hc)
          · exact Or.inr (Or.inr hc)
      · simp only [List.mem_append, List.mem_singleton] at hc
        rcases hc with hc | hc
        · exact Or.inl (hstore call hc)
        · exact Or.inr (Or.inl hc)
    · simp only [List.mem_append, List.mem_singleton] at hc
      rcases hc with hc | hc
      · exact Or.inl (hstore call hc)
      · exact Or.inr (Or.inl hc)

/-- C8 as stated fails: for the specification `spec` in `ns` with `secretName`
`target`, the Secret that is updated and then created is named `spec`, not
`target`. -/
theorem createOrUpdateSecret_name_is_not_secretName :
    controllerFresh.createOrUpdateSecret ⟨"g", "v1"⟩ specNamedTarget =
      (none, [.GetSecretValueForVersion "k1" "", .Update "ns" secretOfSpecNamedTarget,
              .Create "ns" secretOfSpecNamedTarget]) ∧
    secretOfSpecNamedTarget.Name ≠ specNamedTarget.Spec.SecretName := by
  constructor <;> decide

/-- C8, amended: every Secret that `createOrUpdateSecret` updates or creates is
written in the namespace of the specification, and carries that namespace and
the specification's own metadata name; `spec.secretName` is not read: the
result is the same for every value of it. -/
theorem createOrUpdateSecret_identity (gv : GroupVersion) (c : Controller) (kvs : KeyvaultSecret)
    (call : Call) (ns : String) (secret : Secret)
    (hcall : call ∈ (c.createOrUpdateSecret gv kvs).2)
    (hwrite : call = .Update ns secret ∨ call = .Create ns secret) :
    ns = kvs.Namespace ∧ secret.Namespace = kvs.Namespace ∧ secret.Name = kvs.Name ∧
    ∀ secretName, c.createOrUpdateSecret gv { kvs with Spec := { kvs.Spec with SecretName := secretName } } =
      c.createOrUpdateSecret gv kvs := by
  have hmeta := getK8sSecretLoop_meta { keyvaultSecret := kvs, storeClient := c.keyvaultClient }
    kvs.Spec.Items (SecretConverter.newSecret gv { keyvaultSecret := kvs, storeClient := c.keyvaultClient })
  have hsecret : ns = kvs.Namespace ∧ secret =
      (SecretConverter.getK8sSecret gv { keyvaultSecret := kvs, storeClient := c.keyvaultClient }).1.1 := by
    rcases createOrUpdateSecret_calls gv c kvs call hcall with h | h | h
    · rcases hwrite with rfl | rfl <;> simp [Call.isStore] at h
    · rcases hwrite with rfl | rfl
      · injection h with h1 h2; exact ⟨h1, h2⟩
      · cases h
    · rcases hwrite with rfl | rfl
      · cases h
      · injection h with h1 h2; exact ⟨h1, h2⟩
  obtain ⟨hns, rfl⟩ := hsecret
  refine ⟨hns, hmeta.2.1, hmeta.1, ?_⟩
  intro secretName
  unfold Controller.createOrUpdateSecret SecretConverter.getK8sSecret
  simp only
  rw [getK8sSecretLoop_same_store _ kvs]
  rfl

/-- The Secret created for the specification `spec` with `secretName` `target`. -/
theorem createOrUpdateSecret_identity_witness :
    "ns" = specNamedTarget.Namespace ∧ secretOfSpecNamedTarget.Namespace = specNamedTarget.Namespace ∧
    secretOfSpecNamedTarget.Name = specNamedTarget.Name ∧
    ∀ secretName, controllerFresh.createOrUpdateSecret ⟨"g", "v1"⟩
        { specNamedTarget with Spec := { specNamedTarget.Spec with SecretName := secretName } } =
      controllerFresh.createOrUpdateSecret ⟨"g", "v1"⟩ specNamedTarget :=
  createOrUpdateSecret_identity ⟨"g", "v1"⟩ controllerFresh specNamedTarget
    (.Create "ns" secretOfSpecNamedTarget) "ns" secretOfSpecNamedTarget (by decide) (Or.inr rfl)

/-! ## Create or update, and absent specifications -/

/-- C9: when materialization succeeds with the Secret `secret`,
`createOrUpdateSecret` makes, after the reads of the store, one `Update` of
`secret`; when that succeeds it returns nil and makes no `Create`; when it
fails with NotFound it makes one `Create` of the same `secret`, which carries
the controller reference to the specification, and returns what `Create`
returned; when it fails otherwise it returns that error and makes no `Create`. -/
theorem createOrUpdateSecret_update_then_create (gv : GroupVersion) (c : Controller)
    (kvs : KeyvaultSecret) (secret : Secret) (calls : List Call)
    (hmat : SecretConverter.getK8sSecret gv { keyvaultSecret := kvs, storeClient := c.keyvaultClient } =
      ((secret, none), calls)) :
    secret.OwnerReferences = [NewControllerRef kvs gv "KeyvaultSecret"] ∧
    (∀ call ∈ calls, call.isUpdate = false ∧ call.isCreate = false) ∧
    (c.kubeclientset.Update kvs.Namespace secret = none →
      c.createOrUpdateSecret gv kvs = (none, calls ++ [.Update kvs.Namespace secret])) ∧
    (∀ err, c.kubeclientset.Update kvs.Namespace secret = some err → IsNotFound (some err) = true →
      c.createOrUpdateSecret gv kvs =
        (c.kubeclientset.Create kvs.Namespace secret,
          calls ++ [.Update kvs.Namespace secret, .Create kvs.Namespace secret])) ∧
    (∀ err, c.kubeclientset.Update kvs.Namespace secret = some err → IsNotFound (some err) = false →
      c.createOrUpdateSecret gv kvs = (some err, calls ++ [.Update kvs.Namespace secret])) := by
  have hmeta := getK8sSecretLoop_meta { keyvaultSecret := kvs, storeClient := c.keyvaultClient }
    kvs.Spec.Items (SecretConverter.newSecret gv { keyvaultSecret := kvs, storeClient := c.keyvaultClient })
  have hstore := getK8sSecretLoop_isStore
    { keyvaultSecret := kvs, storeClient := c.keyvaultClient } kvs.Spec.Items
    (SecretConverter.newSecret gv { keyvaultSecret := kvs, storeClient := c.keyvaultClient })
  unfold SecretConverter.getK8sSecret at hmat
  simp only at hmat
  rw [hmat] at hmeta hstore
  refine ⟨?_, fun call hc => isStore_not_write call (hstore call hc), ?_, ?_, ?_⟩
  · rw [hmeta.2.2]
    rfl
  · intro hup
    unfold Controller.createOrUpdateSecret SecretConverter.getK8sSecret
    simp only [hmat, hup]
  · intro err hup hnf
    unfold Controller.createOrUpdateSecret SecretConverter.getK8sSecret
    simp only [hmat, hup, hnf, if_true]
    cases c.kubeclientset.Create kvs.Namespace secret <;> rfl
  · intro err hup hnf
    unfold Controller.createOrUpdateSecret SecretConverter.getK8sSecret
    simp only [hmat, hup, hnf, Bool.false_eq_true, if_false]

/-- The cluster has no Secret yet: one `Update`, then one `Create` of the same Secret. -/
theorem createOrUpdateSecret_update_then_create_witness :
    controllerFresh.createOrUpdateSecret ⟨"g", "v1"⟩ specNamedTarget =
      (controllerFresh.kubeclientset.Create "ns" secretOfSpecNamedTarget,
        [Call.GetSecretValueForVersion "k1" ""] ++
          [.Update "ns" secretOfSpecNamedTarget, .Create "ns" secretOfSpecNamedTarget]) :=
  (createOrUpdateSecret_update_then_create ⟨"g", "v1"⟩ controllerFresh specNamedTarget
    secretOfSpecNamedTarget [.GetSecretValueForVersion "k1" ""] (by decide)).2.2.2.1
    { text := "secrets not found", notFound := true } rfl rfl

/-- C10: for a key that splits into a namespace and a name, when the lister
has no specification of that name, `secretHandler` returns nil if the lister's
error is NotFound and returns the lister's error otherwise; in both cases the
only call made is the read of the lister: no call of the store, no `Update`,
no `Create`. -/
theorem secretHandler_absent_specification (gv : GroupVersion) (c : Controller)
    (key ns name : String) (err : GoError)
    (hkey : SplitMetaNamespaceKey key = .ok (ns, name))
    (hlist : c.keyvaultSecretsLister ns name = .error err) :
    (IsNotFound (some err) = true → c.secretHandler gv key = (none, [.ListerGet ns name])) ∧
    (IsNotFound (some err) = false → c.secretHandler gv key = (some err, [.ListerGet ns name])) ∧
    ∀ call ∈ (c.secretHandler gv key).2,
      call.isStore = false ∧ call.isUpdate = false ∧ call.isCreate = false := by
  have hcases : c.secretHandler gv key =
      (if IsNotFound (some err) then none else some err, [.ListerGet ns name]) := by
    unfold Controller.secretHandler
    simp only [hkey, hlist]
    split <;> rfl
  refine ⟨fun h => by rw [hcases, h]; rfl, fun h => by rw [hcases, h]; rfl, ?_⟩
  intro call hc
  rw [hcases] at hc
  simp only [List.mem_singleton] at hc
  subst hc
  exact ⟨rfl, rfl, rfl⟩

/-- The key `ns/gone` of a specification the lister does not have. -/
theorem secretHandler_absent_specification_witness :
    controllerK1.secretHandler ⟨"g", "v1"⟩ "ns/gone" = (none, [.ListerGet "ns" "gone"]) :=
  (secretHandler_absent_specification ⟨"g", "v1"⟩ controllerK1 "ns/gone" "ns" "gone"
    { text := "not found", notFound := true } rfl rfl).1 rfl

/-! ## Watch handlers, acknowledgement and newSecret -/

/-- C11: the handlers of `setupWatches` on KeyvaultSecrets: `UpdateFunc` makes
one `AddRateLimited` of the key of the new object when the resource versions of
the old and the new object differ and makes no call when they are equal;
`AddFunc` and `DeleteFunc` make one `AddRateLimited` of the key of the object,
whatever the object holds, and `DeleteFunc` of a tombstone one of its key. -/
theorem setupWatches_admission (old new obj : KeyvaultSecret) (key : String) :
    (old.ResourceVersion ≠ new.ResourceVersion →
      setupWatches.UpdateFunc (.keyvaultSecret old) (.keyvaultSecret new) =
        some [.AddRateLimited new.key]) ∧
    (old.ResourceVersion = new.ResourceVersion →
      setupWatches.UpdateFunc (.keyvaultSecret old) (.keyvaultSecret new) = some []) ∧
    ((∃ calls, setupWatches.UpdateFunc (.keyvaultSecret old) (.keyvaultSecret new) = some calls ∧
        Call.AddRateLimited new.key ∈ calls) ↔ old.ResourceVersion ≠ new.ResourceVersion) ∧
    setupWatches.AddFunc (.keyvaultSecret obj) = [.AddRateLimited obj.key] ∧
    setupWatches.DeleteFunc (.keyvaultSecret obj) = [.AddRateLimited obj.key] ∧
    setupWatches.DeleteFunc (.deletedFinalStateUnknown key) = [.AddRateLimited key] := by
  have hne : old.ResourceVersion ≠ new.ResourceVersion →
      setupWatches.UpdateFunc (.keyvaultSecret old) (.keyvaultSecret new) =
        some [.AddRateLimited new.key] := by
    intro h
    simp [setupWatches.UpdateFunc, h, Controller.enqueueKeyvaultSecret, MetaNamespaceKeyFunc]
  have heq : old.ResourceVersion = new.ResourceVersion →
      setupWatches.UpdateFunc (.keyvaultSecret old) (.keyvaultSecret new) = some [] := by
    intro h
    simp [setupWatches.UpdateFunc, h]
  refine ⟨hne, heq, ?_, rfl, rfl, rfl⟩
  constructor
  · rintro ⟨calls, hc, hm⟩ h
    rw [heq h] at hc
    injection hc with hc
    subst hc
    cases hm
  · intro h
    exact ⟨_, hne h, List.mem_singleton.mpr rfl⟩

/-- Two versions of one specification, and the same version twice. -/
theorem setupWatches_admission_witness :
    setupWatches.UpdateFunc (.keyvaultSecret { Name := "spec", Namespace := "ns", ResourceVersion := "41" })
        (.keyvaultSecret { Name := "spec", Namespace := "ns", ResourceVersion := "42" }) =
      some [.AddRateLimited "ns/spec"] ∧
    setupWatches.UpdateFunc (.keyvaultSecret { Name := "spec", Namespace := "ns", ResourceVersion := "42" })
        (.keyvaultSecret { Name := "spec", Namespace := "ns", ResourceVersion := "42" }) = some [] :=
  ⟨(setupWatches_admission { Name := "spec", Namespace := "ns", ResourceVersion := "41" }
      { Name := "spec", Namespace := "ns", ResourceVersion := "42" } {} "").1 (by decide),
   (setupWatches_admission { Name := "spec", Namespace := "ns", ResourceVersion := "42" }
      { Name := "spec", Namespace := "ns", ResourceVersion := "42" } {} "").2.1 rfl⟩

theorem createOrUpdateSecret_not_isQueue (gv : GroupVersion) (c : Controller) (kvs : KeyvaultSecret) :
    ∀ call ∈ (c.createOrUpdateSecret gv kvs).2, call.isQueue = false := by
  intro call hc
  rcases createOrUpdateSecret_calls gv c kvs call hc with h | h | h
  · cases call <;> simp [Call.isStore] at h <;> rfl
  · rw [h]; rfl
  · rw [h]; rfl

theorem secretHandler_not_isQueue (gv : GroupVersion) (c : Controller) (key : String) :
    ∀ call ∈ (c.secretHandler gv key).2, call.isQueue = false := by
  intro call hc
  unfold Controller.secretHandler at hc
  split at hc
  · simp only [List.mem_singleton] at hc
    subst hc; rfl
  · split at hc
    · split at hc <;>
      · simp only [List.mem_singleton] at hc
        subst hc; rfl
    · rename_i kvs _
      have hq := createOrUpdateSecret_not_isQueue gv c kvs
      split at hc <;> rename_i heq <;> rw [heq] at hq
      · simp only [List.mem_cons] at hc
        rcases hc with hc | hc
        · subst hc; rfl
        · exact hq call hc
      · simp only [List.mem_append, List.mem_cons, List.mem_singleton, List.not_mem_nil,
          or_false] at hc
        rcases hc with (hc | hc) | hc
        · subst hc; rfl
        · exact hq call hc
        · subst hc; rfl

theorem filter_isQueue_append (calls tail : List Call)
    (h : ∀ call ∈ calls, call.isQueue = false) :
    (calls ++ tail).filter Call.isQueue = tail.filter Call.isQueue := by
  rw [List.filter_append]
  have : calls.filter Call.isQueue = [] := by
    rw [List.filter_eq_nil_iff]
    intro call hc
    simp [h call hc]
  rw [this, List.nil_append]

/-- C12: for a string key taken from the queue, the calls `processItem` makes
to the work queue are, when `secretHandler` returns an error, one
`AddRateLimited` of the key and then one `Done`, with no `Forget`, and an error
is returned; and, when `secretHandler` returns nil, one `Forget` and then one
`Done`, with no `AddRateLimited`, and nil is returned. -/
theorem processItem_acknowledges (gv : GroupVersion) (c : Controller) (key : String) :
    ((∃ err, (c.secretHandler gv key).1 = some err) →
      (∃ err, (c.processItem gv (.key key)).1 = some err) ∧
      (c.processItem gv (.key key)).2 = (c.secretHandler gv key).2 ++ [.AddRateLimited key, .Done (.key key)] ∧
      (c.processItem gv (.key key)).2.filter Call.isQueue = [.AddRateLimited key, .Done (.key key)]) ∧
    ((c.secretHandler gv key).1 = none →
      (c.processItem gv (.key key)).1 = none ∧
      (c.processItem gv (.key key)).2 = (c.secretHandler gv key).2 ++ [.Forget (.key key), .Done (.key key)] ∧
      (c.processItem gv (.key key)).2.filter Call.isQueue = [.Forget (.key key), .Done (.key key)]) := by
  have hq := secretHandler_not_isQueue gv c key
  rcases hr : c.secretHandler gv key with ⟨e, calls⟩
  rw [hr] at hq
  simp only at hq
  constructor
  · rintro ⟨err, he⟩
    simp only at he
    subst he
    have hp : c.processItem gv (.key key) =
        (some (Errorf ("error syncing " ++ squote ++ key ++ squote ++ ": " ++ err.Error ++ ", requeuing")),
          calls ++ [.AddRateLimited key, .Done (.key key)]) := by
      simp only [Controller.processItem, hr]
    rw [hp]
    refine ⟨⟨_, rfl⟩, rfl, ?_⟩
    simp only
    rw [filter_isQueue_append calls _ hq]
    rfl
  · intro he
    simp only at he
    subst he
    have hp : c.processItem gv (.key key) = (none, calls ++ [.Forget (.key key), .Done (.key key)]) := by
      simp only [Controller.processItem, hr]
    rw [hp]
    refine ⟨rfl, rfl, ?_⟩
    simp only
    rw [filter_isQueue_append calls _ hq]
    rfl

/-- A key whose reconcile fails is added again and not forgotten; a key whose
reconcile succeeds is forgotten and not added again. -/
theorem processItem_acknowledges_witness :
    (controllerListing.processItem ⟨"g", "v1"⟩ (.key "ns/broken")).2.filter Call.isQueue =
      [.AddRateLimited "ns/broken", .Done (.key "ns/broken")] ∧
    (controllerListing.processItem ⟨"g", "v1"⟩ (.key "ns/spec")).2.filter Call.isQueue =
      [.Forget (.key "ns/spec"), .Done (.key "ns/spec")] :=
  ⟨((processItem_acknowledges ⟨"g", "v1"⟩ controllerListing "ns/broken").1 ⟨_, rfl⟩).2.2,
   ((processItem_acknowledges ⟨"g", "v1"⟩ controllerListing "ns/spec").2 rfl).2.2⟩

/-- C14: `newSecret` returns a Secret whose name is the metadata name of the
KeyvaultSecret and whose namespace is its metadata namespace, the empty
namespace included. -/
theorem newSecret_name_namespace (gv : GroupVersion) (c : SecretConverter) :
    (c.newSecret gv).Name = c.keyvaultSecret.Name ∧
    (c.newSecret gv).Namespace = c.keyvaultSecret.Namespace ∧
    (c.keyvaultSecret.Namespace = "" → (c.newSecret gv).Namespace = "") := by
  refine ⟨rfl, rfl, fun h => ?_⟩
  rw [← h]
  rfl

/-- The two cases of `Test_newSecret`: with a namespace and without one. -/
theorem newSecret_name_namespace_witness :
    (SecretConverter.newSecret ⟨"g", "v1"⟩
      { keyvaultSecret := { Name := "test-secret" }, storeClient := storeEmpty }).Namespace = "" :=
  (newSecret_name_namespace ⟨"g", "v1"⟩
    { keyvaultSecret := { Name := "test-secret" }, storeClient := storeEmpty }).2.2 rfl

/-! ## Order of the items -/

theorem getK8sSecretLoop_success (c : SecretConverter) (items : List KeyvaultSecretEntry) :
    ∀ (secret : Secret),
      (c.getK8sSecretLoop items secret).1.2 = none →
      (items.map (fun item => item.KubernetesName)).Nodup →
      (∀ item ∈ items, ∃ v, c.entryValue item = .ok v ∧
        (c.getK8sSecretLoop items secret).1.1.Data.get item.KubernetesName = some v) ∧
      (∀ k, k ∉ items.map (fun item => item.KubernetesName) →
        (c.getK8sSecretLoop items secret).1.1.Data.get k = secret.Data.get k) := by
  induction items with
  | nil => intro secret _ _; simp [SecretConverter.getK8sSecretLoop]
  | cons hd tl ih =>
    intro secret hsucc hnodup
    rw [List.map_cons, List.nodup_cons] at hnodup
    obtain ⟨hnotin, hnodup'⟩ := hnodup
    have key : ∃ v, c.entryValue hd = .ok v ∧
        c.getK8sSecretLoop (hd :: tl) secret =
          ((c.getK8sSecretLoop tl { secret with Data := secret.Data.set hd.KubernetesName v }).1,
            (c.getK8sSecretLoop (hd :: tl) secret).2) := by
      unfold SecretConverter.entryValue
      by_cases hv : hd.IsValid.1 = false
      · obtain ⟨err, herr⟩ := IsValid_error_of_false hd hv
        rw [SecretConverter.getK8sSecretLoop] at hsucc
        simp [hv, herr] at hsucc
      · have hv' : hd.IsValid.1 = true := by simpa using hv
        by_cases ht : hd.IsTemplateEntry = true
        · rcases hp : c.processTemplate hd with ⟨r, calls⟩
          cases r with
          | error err =>
            rw [SecretConverter.getK8sSecretLoop] at hsucc
            simp [hv', ht, hp] at hsucc
          | ok parsed =>
            refine ⟨parsed, by simp [ht], ?_⟩
            conv => lhs; rw [SecretConverter.getK8sSecretLoop]
            simp [hv', ht, hp, SecretConverter.getK8sSecretLoop]
        · have ht' : hd.IsTemplateEntry = false := by simpa using ht
          cases hs : c.storeClient.GetSecretValueForVersion hd.KeyvaultName hd.KeyvaultVersion with
          | error err =>
            rw [SecretConverter.getK8sSecretLoop] at hsucc
            simp [hv', ht', hs] at hsucc
          | ok v =>
            refine ⟨v, by simp [ht'], ?_⟩
            conv => lhs; rw [SecretConverter.getK8sSecretLoop]
            simp [hv', ht', hs, SecretConverter.getK8sSecretLoop]
    obtain ⟨v, hval, hstep⟩ := key
    have hsucc' : (c.getK8sSecretLoop tl { secret with Data := secret.Data.set hd.KubernetesName v }).1.2
        = none := by
      rw [hstep] at hsucc
      exact hsucc
    obtain ⟨h3, h4⟩ := ih _ hsucc' hnodup'
    rw [hstep]
    refine ⟨?_, ?_⟩
    · intro item hm
      rcases List.mem_cons.mp hm with rfl | hm'
      · refine ⟨v, hval, ?_⟩
        simp only
        rw [h4 _ hnotin]
        exact DataMap.get_set_self _ _ _
      · exact h3 item hm'
    · intro k hkn
      rw [List.map_cons, List.mem_cons, not_or] at hkn
      simp only
      rw [h4 k hkn.2]
      exact DataMap.get_set_ne _ _ _ _ hkn.1

/-- C15 as stated fails: two entries for the same output key `o`, one for the
secret `k1` and one for `k2`, materialize in both orders, and `Data["o"]` is
the value of `k2` in one order and the value of `k1` in the other. -/
theorem getK8sSecret_order_matters_for_shared_key :
    itemsSameKeySwapped.Perm itemsSameKey ∧
    (SecretConverter.getK8sSecret ⟨"g", "v1"⟩
      { keyvaultSecret := { Name := "spec", Namespace := "ns", Spec := { Items := itemsSameKey } },
        storeClient := storeEcho }).1 =
      ({ Name := "spec", Namespace := "ns",
         OwnerReferences := [{ APIVersion := "g/v1", Kind := "KeyvaultSecret", Name := "spec", UID := "",
                               Controller := some true, BlockOwnerDeletion := some true }],
         Data := [("o", "k2@")] }, none) ∧
    (SecretConverter.getK8sSecret ⟨"g", "v1"⟩
      { keyvaultSecret := { Name := "spec", Namespace := "ns", Spec := { Items := itemsSameKeySwapped } },
        storeClient := storeEcho }).1 =
      ({ Name := "spec", Namespace := "ns",
         OwnerReferences := [{ APIVersion := "g/v1", Kind := "KeyvaultSecret", Name := "spec", UID := "",
                               Controller := some true, BlockOwnerDeletion := some true }],
         Data := [("o", "k1@")] }, none) := by
  refine ⟨List.Perm.swap _ _ _, ?_, ?_⟩ <;> decide

/-- C15, amended: for a specification whose items have pairwise distinct
output keys, every permutation of the items and every store, when
`getK8sSecret` returns no error on both the specification and the permuted
one, the two `Data` maps hold the same value, or none, at every key. -/
theorem getK8sSecret_order_irrelevant_distinct_keys (gv : GroupVersion) (store : StoreClient)
    (kvs : KeyvaultSecret) (items : List KeyvaultSecretEntry)
    (hperm : items.Perm kvs.Spec.Items)
    (hdistinct : (kvs.Spec.Items.map (fun item => item.KubernetesName)).Nodup)
    (hfirst : (SecretConverter.getK8sSecret gv { keyvaultSecret := kvs, storeClient := store }).1.2 = none)
    (hsecond : (SecretConverter.getK8sSecret gv
      { keyvaultSecret := { kvs with Spec := { kvs.Spec with Items := items } },
        storeClient := store }).1.2 = none) :
    ∀ k, (SecretConverter.getK8sSecret gv
        { keyvaultSecret := { kvs with Spec := { kvs.Spec with Items := items } },
          storeClient := store }).1.1.Data.get k =
      (SecretConverter.getK8sSecret gv { keyvaultSecret := kvs, storeClient := store }).1.1.Data.get k := by
  have hdistinct' : (items.map (fun item => item.KubernetesName)).Nodup :=
    (List.Perm.nodup_iff (List.Perm.map _ hperm)).mpr hdistinct
  unfold SecretConverter.getK8sSecret at hfirst hsecond ⊢
  simp only at hfirst hsecond ⊢
  rw [getK8sSecretLoop_same_store _ kvs] at hsecond ⊢
  obtain ⟨ha, hb⟩ := getK8sSecretLoop_success { keyvaultSecret := kvs, storeClient := store }
    kvs.Spec.Items _ hfirst hdistinct
  obtain ⟨ha', hb'⟩ := getK8sSecretLoop_success { keyvaultSecret := kvs, storeClient := store }
    items _ hsecond hdistinct'
  intro k
  by_cases hk : k ∈ kvs.Spec.Items.map (fun item => item.KubernetesName)
  · obtain ⟨item, hm, rfl⟩ := List.mem_map.mp hk
    obtain ⟨v, hv, hget⟩ := ha item hm
    obtain ⟨v', hv', hget'⟩ := ha' item (hperm.mem_iff.mpr hm)
    rw [hv] at hv'
    injection hv' with hvv
    rw [hget, hget', hvv]
  · have hk' : k ∉ items.map (fun item => item.KubernetesName) := by
      intro h
      exact hk ((List.Perm.map _ hperm).mem_iff.mp h)
    rw [hb k hk, hb' k hk']
    rfl

/-- The two entries of `converterTwoDirect`, for the keys `o1` and `o2`, in
the other order: the value at `o1` is the same. -/
theorem getK8sSecret_order_irrelevant_distinct_keys_witness :
    (SecretConverter.getK8sSecret ⟨"g", "v1"⟩
        { keyvaultSecret := { converterTwoDirect.keyvaultSecret with
            Spec := { converterTwoDirect.keyvaultSecret.Spec with
              Items := [{ KeyvaultName := "k2", KubernetesName := "o2" },
                        { KeyvaultName := "k1", KeyvaultVersion := "v2", KubernetesName := "o1" }] } },
          storeClient := storeEcho }).1.1.Data.get "o1" =
      (SecretConverter.getK8sSecret ⟨"g", "v1"⟩
        { keyvaultSecret := converterTwoDirect.keyvaultSecret, storeClient := storeEcho }).1.1.Data.get "o1" :=
  getK8sSecret_order_irrelevant_distinct_keys ⟨"g", "v1"⟩ storeEcho converterTwoDirect.keyvaultSecret
    [{ KeyvaultName := "k2", KubernetesName := "o2" },
     { KeyvaultName := "k1", KeyvaultVersion := "v2", KubernetesName := "o1" }]
    (List.Perm.swap _ _ _) (by decide) (by decide) (by decide) "o1"

/-! ## The work queue -/

theorem WorkQueue.wellFormed_empty : WorkQueue.WellFormed {} := by
  refine ⟨List.nodup_nil, ?_, ?_, ?_⟩ <;> intro x hx <;> cases hx

theorem WorkQueue.Add_processing (q : WorkQueue) (item : Item) :
    (q.Add item).processing = q.processing ∧ (q.Add item).shuttingDown = q.shuttingDown ∧
    (q.Add item).waiting = q.waiting := by
  unfold WorkQueue.Add
  split
  · exact ⟨rfl, rfl, rfl⟩
  · split
    · exact ⟨rfl, rfl, rfl⟩
    · split <;> exact ⟨rfl, rfl, rfl⟩

theorem WorkQueue.Add_queue_mono (q : WorkQueue) (item k : Item) (hk : k ∈ q.queue) :
    k ∈ (q.Add item).queue := by
  unfold WorkQueue.Add
  split
  · exact hk
  · split
    · exact hk
    · split
      · exact hk
      · exact List.mem_append_left _ hk

theorem WorkQueue.Add_wellFormed (q : WorkQueue) (item : Item) (hwf : q.WellFormed) :
    (q.Add item).WellFormed := by
  obtain ⟨h1, h2, h3, h4⟩ := hwf
  unfold WorkQueue.Add
  split
  · exact ⟨h1, h2, h3, h4⟩
  · split
    · exact ⟨h1, h2, h3, h4⟩
    · rename_i hd
      split
      · rename_i hp
        refine ⟨h1, fun x hx => List.mem_append_left _ (h2 x hx), h3, ?_⟩
        intro x hx
        rcases List.mem_append.mp hx with hx | hx
        · exact h4 x hx
        · rw [List.mem_singleton.mp hx]
          exact Or.inr hp
      · rename_i hp
        refine ⟨?_, ?_, ?_, ?_⟩
        · show (q.queue ++ [item]).Nodup
          rw [List.nodup_append]
          refine ⟨h1, List.nodup_singleton _, ?_⟩
          intro a ha hb
          rw [List.mem_singleton.mp hb] at ha
          exact hd (h2 item ha)
        · intro x hx
          show x ∈ q.dirty ++ [item]
          rcases List.mem_append.mp hx with hx | hx
          · exact List.mem_append_left _ (h2 x hx)
          · exact List.mem_append_right _ hx
        · intro x hx
          show x ∉ q.processing
          rcases List.mem_append.mp hx with hx | hx
          · exact h3 x hx
          · rw [List.mem_singleton.mp hx]
            exact hp
        · intro x hx
          show x ∈ q.queue ++ [item] ∨ x ∈ q.processing
          rcases List.mem_append.mp hx with hx | hx
          · rcases h4 x hx with h | h
            · exact Or.inl (List.mem_append_left _ h)
            · exact Or.inr h
          · exact Or.inl (List.mem_append_right _ hx)

theorem WorkQueue.Add_self_mem_queue (q : WorkQueue) (k : Item) (hwf : q.WellFormed)
    (hrun : q.shuttingDown = false) (hk : k ∉ q.processing) : k ∈ (q.Add k).queue := by
  unfold WorkQueue.Add
  simp only [hrun, Bool.false_eq_true, if_false]
  split
  · rename_i hd
    rcases hwf.2.2.2 k hd with h | h
    · exact h
    · exact absurd h hk
  · simp only [hk, if_false]
    exact List.mem_append_right _ (List.mem_singleton.mpr rfl)

theorem WorkQueue.foldl_Add_wellFormed (items : List Item) :
    ∀ (q : WorkQueue), q.WellFormed → (items.foldl WorkQueue.Add q).WellFormed := by
  induction items with
  | nil => intro q h; exact h
  | cons x rest ih => intro q h; exact ih _ (WorkQueue.Add_wellFormed q x h)

theorem WorkQueue.foldl_Add_mem_queue (items : List Item) (k : Item) :
    ∀ (q : WorkQueue), q.WellFormed → q.shuttingDown = false → k ∉ q.processing →
      (k ∈ items ∨ k ∈ q.queue) → k ∈ (items.foldl WorkQueue.Add q).queue := by
  induction items with
  | nil =>
    intro q _ _ _ h
    rcases h with h | h
    · cases h
    · exact h
  | cons x rest ih =>
    intro q hwf hrun hk h
    obtain ⟨hp, hs, _⟩ := WorkQueue.Add_processing q x
    apply ih (q.Add x) (WorkQueue.Add_wellFormed q x hwf) (by rw [hs]; exact hrun) (by rw [hp]; exact hk)
    rcases h with h | h
    · rcases List.mem_cons.mp h with rfl | h'
      · exact Or.inr (WorkQueue.Add_self_mem_queue q k hwf hrun hk)
      · exact Or.inl h'
    · exact Or.inr (WorkQueue.Add_queue_mono q x k h)

theorem WorkQueue.getAll_eq_queue (fuel : Nat) :
    ∀ (q : WorkQueue), q.queue.length ≤ fuel → WorkQueue.getAll fuel q = q.queue := by
  induction fuel with
  | zero =>
    intro q h
    have : q.queue = [] := List.length_eq_zero.mp (Nat.le_zero.mp h)
    rw [this]
    rfl
  | succ n ih =>
    intro q h
    unfold WorkQueue.getAll WorkQueue.Get
    cases hq : q.queue with
    | nil => cases q.shuttingDown <;> rfl
    | cons x rest =>
      simp only
      rw [ih]
      rw [hq] at h
      simpa using h

theorem WorkQueue.elapseAll_wellFormed (q : WorkQueue) (hwf : q.WellFormed) :
    q.elapseAll.WellFormed :=
  WorkQueue.foldl_Add_wellFormed q.waiting _ hwf

theorem WorkQueue.elapseAll_mem_queue (q : WorkQueue) (k : Item) (hwf : q.WellFormed)
    (hrun : q.shuttingDown = false) (hk : k ∉ q.processing) (h : k ∈ q.waiting ∨ k ∈ q.queue) :
    k ∈ q.elapseAll.queue :=
  WorkQueue.foldl_Add_mem_queue q.waiting k _ hwf hrun hk h

theorem WorkQueue.dequeued_once (q : WorkQueue) (k : Item) (fuel : Nat) (hwf : q.WellFormed)
    (hrun : q.shuttingDown = false) (hk : k ∉ q.processing) (h : k ∈ q.waiting ∨ k ∈ q.queue)
    (hfuel : q.elapseAll.queue.length ≤ fuel) :
    (WorkQueue.getAll fuel q.elapseAll).count k = 1 := by
  rw [WorkQueue.getAll_eq_queue fuel _ hfuel]
  exact List.count_eq_one_of_mem (WorkQueue.elapseAll_wellFormed q hwf).1
    (WorkQueue.elapseAll_mem_queue q k hwf hrun hk h)

theorem WorkQueue.AddRateLimited_fields (q : WorkQueue) (item : Item) :
    (q.AddRateLimited item).queue = q.queue ∧ (q.AddRateLimited item).dirty = q.dirty ∧
    (q.AddRateLimited item).processing = q.processing ∧
    (q.AddRateLimited item).shuttingDown = q.shuttingDown := by
  unfold WorkQueue.AddRateLimited
  split
  · exact ⟨rfl, rfl, rfl, rfl⟩
  · split <;> exact ⟨rfl, rfl, rfl, rfl⟩

theorem WorkQueue.AddRateLimited_wellFormed (q : WorkQueue) (item : Item) (hwf : q.WellFormed) :
    (q.AddRateLimited item).WellFormed := by
  obtain ⟨h1, h2, h3, h4⟩ := WorkQueue.AddRateLimited_fields q item
  unfold WorkQueue.WellFormed
  rw [h1, h2, h3]
  exact hwf

theorem WorkQueue.AddRateLimited_mem_waiting (q : WorkQueue) (item : Item)
    (hrun : q.shuttingDown = false) : item ∈ (q.AddRateLimited item).waiting := by
  unfold WorkQueue.AddRateLimited
  simp only [hrun, Bool.false_eq_true, if_false]
  split
  · assumption
  · exact List.mem_append_right _ (List.mem_singleton.mpr rfl)

theorem WorkQueue.AddRateLimited_idem (q : WorkQueue) (item : Item) :
    (q.AddRateLimited item).AddRateLimited item = q.AddRateLimited item := by
  by_cases hs : q.shuttingDown = true
  · simp [WorkQueue.AddRateLimited, hs]
  · have hrun : q.shuttingDown = false := by simpa using hs
    have hm := WorkQueue.AddRateLimited_mem_waiting q item hrun
    have hs' := (WorkQueue.AddRateLimited_fields q item).2.2.2
    have key : ∀ q1 : WorkQueue, q1.shuttingDown = false → item ∈ q1.waiting →
        q1.AddRateLimited item = q1 := by
      intro q1 h1 h2
      simp [WorkQueue.AddRateLimited, h1, h2]
    exact key _ (hs'.trans hrun) hm

theorem WorkQueue.elapse_fields (q : WorkQueue) (item : Item) :
    (q.elapse item).processing = q.processing ∧ (q.elapse item).shuttingDown = q.shuttingDown := by
  unfold WorkQueue.elapse
  split
  · obtain ⟨h1, h2, _⟩ := WorkQueue.Add_processing
      { q with waiting := q.waiting.filter (fun x => x != item) } item
    exact ⟨h1, h2⟩
  · exact ⟨rfl, rfl⟩

theorem WorkQueue.elapse_wellFormed (q : WorkQueue) (item : Item) (hwf : q.WellFormed) :
    (q.elapse item).WellFormed := by
  unfold WorkQueue.elapse
  split
  · exact WorkQueue.Add_wellFormed _ item hwf
  · exact hwf

theorem WorkQueue.ShutDown_wellFormed (q : WorkQueue) (hwf : q.WellFormed) :
    q.ShutDown.WellFormed := hwf

theorem WorkQueue.Get_wellFormed (q q' : WorkQueue) (item : Item) (hwf : q.WellFormed)
    (hget : q.Get = .item item q') : q'.WellFormed ∧ item ∈ q'.processing := by
  obtain ⟨h1, h2, h3, h4⟩ := hwf
  unfold WorkQueue.Get at hget
  cases hq : q.queue with
  | nil => rw [hq] at hget; simp only at hget; split at hget <;> cases hget
  | cons x rest =>
    rw [hq] at hget h1 h2 h3
    simp only at hget
    injection hget with hx hq'
    subst hx
    subst hq'
    rw [List.nodup_cons] at h1
    refine ⟨⟨h1.2, ?_, ?_, ?_⟩, List.mem_cons_self _ _⟩
    · intro y hy
      show y ∈ q.dirty.filter (fun z => z != x)
      rw [List.mem_filter]
      refine ⟨h2 y (List.mem_cons_of_mem _ hy), ?_⟩
      have : y ≠ x := fun h => h1.1 (h ▸ hy)
      simpa using this
    · intro y hy
      show y ∉ x :: q.processing
      rw [List.mem_cons, not_or]
      exact ⟨fun h => h1.1 (h ▸ hy), h3 y (List.mem_cons_of_mem _ hy)⟩
    · intro y hy
      show y ∈ rest ∨ y ∈ x :: q.processing
      have hy' : y ∈ q.dirty.filter (fun z => z != x) := hy
      rw [List.mem_filter] at hy'
      have hne : y ≠ x := by simpa using hy'.2
      rcases h4 y hy'.1 with h | h
      · rw [hq] at h
        rcases List.mem_cons.mp h with h | h
        · exact absurd h hne
        · exact Or.inl h
      · exact Or.inr (List.mem_cons_of_mem _ h)

theorem WorkQueue.Done_wellFormed (q : WorkQueue) (item : Item) (hwf : q.WellFormed)
    (hproc : item ∈ q.processing) : (q.Done item).WellFormed := by
  obtain ⟨h1, h2, h3, h4⟩ := hwf
  have hnq : item ∉ q.queue := fun h => h3 item h hproc
  have hfilter : ∀ y, y ∈ q.processing.filter (fun z => z != item) ↔ y ∈ q.processing ∧ y ≠ item := by
    intro y
    rw [List.mem_filter]
    simp
  unfold WorkQueue.Done
  split
  · rename_i hd
    refine ⟨?_, ?_, ?_, ?_⟩
    · show (q.queue ++ [item]).Nodup
      rw [List.nodup_append]
      refine ⟨h1, List.nodup_singleton _, ?_⟩
      intro a ha hb
      rw [List.mem_singleton.mp hb] at ha
      exact hnq ha
    · intro y hy
      show y ∈ q.dirty
      rcases List.mem_append.mp hy with hy | hy
      · exact h2 y hy
      · rw [List.mem_singleton.mp hy]; exact hd
    · intro y hy
      show y ∉ q.processing.filter (fun z => z != item)
      rw [hfilter]
      rcases List.mem_append.mp hy with hy | hy
      · exact fun h => h3 y hy h.1
      · exact fun h => h.2 (List.mem_singleton.mp hy)
    · intro y hy
      show y ∈ q.queue ++ [item] ∨ y ∈ q.processing.filter (fun z => z != item)
      by_cases hyi : y = item
      · exact Or.inl (List.mem_append_right _ (List.mem_singleton.mpr hyi))
      · rcases h4 y hy with h | h
        · exact Or.inl (List.mem_append_left _ h)
        · exact Or.inr ((hfilter y).mpr ⟨h, hyi⟩)
  · rename_i hd
    refine ⟨h1, h2, ?_, ?_⟩
    · intro y hy
      show y ∉ q.processing.filter (fun z => z != item)
      rw [hfilter]
      exact fun h => h3 y hy h.1
    · intro y hy
      show y ∈ q.queue ∨ y ∈ q.processing.filter (fun z => z != item)
      rcases h4 y hy with h | h
      · exact Or.inl h
      · exact Or.inr ((hfilter y).mpr ⟨h, fun hyi => hd (hyi ▸ hy)⟩)

theorem WorkQueue.Add_of_mem_dirty (q : WorkQueue) (item : Item) (h : item ∈ q.dirty) :
    q.Add item = q := by
  unfold WorkQueue.Add
  split
  · rfl
  · simp [h]

theorem WorkQueue.foldl_Add_dirty_mono (items : List Item) (k : Item) :
    ∀ (q : WorkQueue), k ∈ q.dirty → k ∈ (items.foldl WorkQueue.Add q).dirty := by
  induction items with
  | nil => intro q h; exact h
  | cons x rest ih =>
    intro q h
    apply ih
    unfold WorkQueue.Add
    split
    · exact h
    · split
      · exact h
      · split <;> exact List.mem_append_left _ h

theorem WorkQueue.AddRateLimited_pending_elapseAll (q : WorkQueue) (k : Item) (hwf : q.WellFormed)
    (hpending : k ∈ q.queue) : (q.AddRateLimited k).elapseAll = q.elapseAll := by
  unfold WorkQueue.AddRateLimited
  split
  · rfl
  · split
    · rfl
    · unfold WorkQueue.elapseAll
      show (q.waiting ++ [k]).foldl WorkQueue.Add { q with waiting := [] } = _
      rw [List.foldl_append]
      simp only [List.foldl_cons, List.foldl_nil]
      apply WorkQueue.Add_of_mem_dirty
      exact WorkQueue.foldl_Add_dirty_mono _ k _ (hwf.2.1 k hpending)

theorem WorkQueue.foldl_Add_fields (items : List Item) :
    ∀ (q : WorkQueue), (items.foldl WorkQueue.Add q).processing = q.processing ∧
      (items.foldl WorkQueue.Add q).shuttingDown = q.shuttingDown := by
  induction items with
  | nil => intro q; exact ⟨rfl, rfl⟩
  | cons x rest ih =>
    intro q
    obtain ⟨h1, h2⟩ := ih (q.Add x)
    obtain ⟨h3, h4, _⟩ := WorkQueue.Add_processing q x
    exact ⟨h1.trans h3, h2.trans h4⟩

theorem WorkQueue.Add_self_mem_dirty (q : WorkQueue) (k : Item) (hrun : q.shuttingDown = false) :
    k ∈ (q.Add k).dirty := by
  unfold WorkQueue.Add
  simp only [hrun, Bool.false_eq_true, if_false]
  split
  · assumption
  · split <;> exact List.mem_append_right _ (List.mem_singleton.mpr rfl)

theorem WorkQueue.foldl_Add_mem_dirty (items : List Item) (k : Item) :
    ∀ (q : WorkQueue), q.shuttingDown = false → k ∈ items →
      k ∈ (items.foldl WorkQueue.Add q).dirty := by
  induction items with
  | nil => intro q _ h; cases h
  | cons x rest ih =>
    intro q hrun h
    rcases List.mem_cons.mp h with rfl | h'
    · exact WorkQueue.foldl_Add_dirty_mono rest k _ (WorkQueue.Add_self_mem_dirty q k hrun)
    · exact ih _ ((WorkQueue.Add_processing q x).2.1.trans hrun) h'

theorem WorkQueue.in_flight_dequeued_after_done (q : WorkQueue) (k : Item) (fuel : Nat)
    (hwf : q.WellFormed) (hrun : q.shuttingDown = false) (hflight : k ∈ q.processing)
    (hwait : k ∈ q.waiting) (hfuel : (q.elapseAll.Done k).queue.length ≤ fuel) :
    k ∉ q.elapseAll.queue ∧ (WorkQueue.getAll fuel (q.elapseAll.Done k)).count k = 1 := by
  have hwf' := WorkQueue.elapseAll_wellFormed q hwf
  have hproc : k ∈ q.elapseAll.processing := by
    unfold WorkQueue.elapseAll
    rw [(WorkQueue.foldl_Add_fields q.waiting _).1]
    exact hflight
  have hdirty : k ∈ q.elapseAll.dirty :=
    WorkQueue.foldl_Add_mem_dirty q.waiting k _ hrun hwait
  refine ⟨fun h => hwf'.2.2.1 k h hproc, ?_⟩
  rw [WorkQueue.getAll_eq_queue fuel _ hfuel]
  apply List.count_eq_one_of_mem (WorkQueue.Done_wellFormed _ k hwf' hproc).1
  unfold WorkQueue.Done
  simp only [hdirty, if_true]
  exact List.mem_append_right _ (List.mem_singleton.mpr rfl)

/-- C13: on a queue that is not shut down, enqueuing an identity twice is the
same as enqueuing it once, and no item is pending twice. When the identity is
not in flight, once the delays are over it is handed out by `Get` exactly
once, whether or not the first delay ends between the two enqueues. When it is
in flight, it is not pending until it is done, and is then handed out exactly
once. For an identity that is pending already, admitting it again changes
nothing and enqueuing it again changes nothing of what `Get` hands out. -/
theorem enqueue_twice_dequeued_once (q : WorkQueue) (identity : String) (hwf : q.WellFormed)
    (hrun : q.shuttingDown = false) :
    (q.AddRateLimited (.key identity)).AddRateLimited (.key identity) =
      q.AddRateLimited (.key identity) ∧
    (Item.key identity ∉ q.processing → ∀ fuel,
      ((q.AddRateLimited (.key identity)).AddRateLimited (.key identity)).elapseAll.queue.length ≤ fuel →
      (WorkQueue.getAll fuel
        ((q.AddRateLimited (.key identity)).AddRateLimited (.key identity)).elapseAll).count
          (.key identity) = 1) ∧
    (Item.key identity ∉ q.processing → ∀ fuel,
      (((q.AddRateLimited (.key identity)).elapse (.key identity)).AddRateLimited
        (.key identity)).elapseAll.queue.length ≤ fuel →
      (WorkQueue.getAll fuel
        (((q.AddRateLimited (.key identity)).elapse (.key identity)).AddRateLimited
          (.key identity)).elapseAll).count (.key identity) = 1) ∧
    (Item.key identity ∈ q.processing → ∀ fuel,
      (((q.AddRateLimited (.key identity)).AddRateLimited (.key identity)).elapseAll.Done
        (.key identity)).queue.length ≤ fuel →
      Item.key identity ∉
        ((q.AddRateLimited (.key identity)).AddRateLimited (.key identity)).elapseAll.queue ∧
      (WorkQueue.getAll fuel
        (((q.AddRateLimited (.key identity)).AddRateLimited (.key identity)).elapseAll.Done
          (.key identity))).count (.key identity) = 1) ∧
    ((q.AddRateLimited (.key identity)).AddRateLimited (.key identity)).elapseAll.queue.Nodup ∧
    (Item.key identity ∈ q.queue →
      q.Add (.key identity) = q ∧ (q.AddRateLimited (.key identity)).elapseAll = q.elapseAll) := by
  have hidem := WorkQueue.AddRateLimited_idem q (.key identity)
  obtain ⟨_, _, hp1, hs1⟩ := WorkQueue.AddRateLimited_fields q (.key identity)
  have hwf1 := WorkQueue.AddRateLimited_wellFormed q (.key identity) hwf
  have hrun1 : (q.AddRateLimited (.key identity)).shuttingDown = false := hs1.trans hrun
  have hm1 := WorkQueue.AddRateLimited_mem_waiting q (.key identity) hrun
  refine ⟨hidem, ?_, ?_, ?_, ?_, ?_⟩
  · intro hflight fuel hfuel
    rw [hidem] at hfuel ⊢
    exact WorkQueue.dequeued_once _ _ fuel hwf1 hrun1 (by rw [hp1]; exact hflight) (Or.inl hm1) hfuel
  · intro hflight fuel hfuel
    obtain ⟨hp2, hs2⟩ := WorkQueue.elapse_fields (q.AddRateLimited (.key identity)) (.key identity)
    have hwf2 := WorkQueue.elapse_wellFormed _ (.key identity) hwf1
    have hrun2 := hs2.trans hrun1
    obtain ⟨_, _, hp3, hs3⟩ := WorkQueue.AddRateLimited_fields
      ((q.AddRateLimited (.key identity)).elapse (.key identity)) (.key identity)
    refine WorkQueue.dequeued_once _ _ fuel (WorkQueue.AddRateLimited_wellFormed _ _ hwf2)
      (hs3.trans hrun2) ?_ (Or.inl (WorkQueue.AddRateLimited_mem_waiting _ _ hrun2)) hfuel
    rw [hp3, hp2, hp1]
    exact hflight
  · intro hflight fuel hfuel
    rw [hidem] at hfuel ⊢
    exact WorkQueue.in_flight_dequeued_after_done _ _ fuel hwf1 hrun1 (by rw [hp1]; exact hflight)
      hm1 hfuel
  · rw [hidem]
    exact (WorkQueue.elapseAll_wellFormed _ hwf1).1
  · intro hpending
    exact ⟨WorkQueue.Add_of_mem_dirty q _ (hwf.2.1 _ hpending),
      WorkQueue.AddRateLimited_pending_elapseAll q _ hwf hpending⟩

/-- The identity `ns/spec` enqueued twice on the empty queue is handed out once. -/
theorem enqueue_twice_dequeued_once_witness :
    WorkQueue.getAll 2
      (((({} : WorkQueue).AddRateLimited (.key "ns/spec")).AddRateLimited (.key "ns/spec")).elapseAll) =
        [.key "ns/spec"] ∧
    (WorkQueue.getAll 2
      (((({} : WorkQueue).AddRateLimited (.key "ns/spec")).AddRateLimited (.key "ns/spec")).elapseAll)).count
        (.key "ns/spec") = 1 :=
  ⟨by decide, (enqueue_twice_dequeued_once {} "ns/spec" WorkQueue.wellFormed_empty rfl).2.1
    (by decide) 2 (by decide)⟩

/-! ## Rejected templates -/

theorem isAlpha_not_special (c : Char) (h : isAlpha c = true) :
    isSpace c = false ∧ c ≠ ']' ∧ c ≠ dquote := by
  refine ⟨?_, ?_, ?_⟩
  · cases hs : isSpace c with
    | false => rfl
    | true =>
      exfalso
      simp only [isSpace, Bool.or_eq_true, decide_eq_true_eq] at hs
      rcases hs with rfl | rfl <;> revert h <;> decide
  · rintro rfl; revert h; decide
  · rintro rfl; revert h; decide

theorem lexRun_ident_body (funcs : FuncMap) (nodes : List Node) (toks : List Tok) (body : List Char)
    (hbody : ∀ ch ∈ body, isAlphaNumeric ch = true) :
    ∀ (buf : List Char),
      lexRun funcs { mode := .ident, nodes := nodes, toks := toks, buf := buf } body =
        .ok { mode := .ident, nodes := nodes, toks := toks, buf := buf ++ body } := by
  induction body with
  | nil => intro buf; simp [lexRun]
  | cons ch rest ih =>
    intro buf
    have hstep : lexStep funcs { mode := .ident, nodes := nodes, toks := toks, buf := buf } ch =
        .ok { mode := .ident, nodes := nodes, toks := toks, buf := buf ++ [ch] } := by
      simp [lexStep, hbody ch (List.mem_cons_self _ _)]
    rw [lexRun, hstep]
    simp only
    rw [ih (fun ch' hm => hbody ch' (List.mem_cons_of_mem _ hm))]
    simp

theorem lexRun_args (funcs : FuncMap) (nodes : List Node) (args : List String)
    (hplain : ∀ a ∈ args, plainLiteral a) :
    ∀ (toks : List Tok),
      lexRun funcs { mode := .action, nodes := nodes, toks := toks, buf := [] } (argsText args) =
        .ok { mode := .action, nodes := nodes, toks := toks ++ args.map Tok.str, buf := [] } := by
  induction args with
  | nil => intro toks; simp [argsText, lexRun]
  | cons a rest ih =>
    intro toks
    have hopen : lexStep funcs { mode := .action, nodes := nodes, toks := toks, buf := [] } dquote =
        .ok { mode := .quote, nodes := nodes, toks := toks, buf := [] } := by
      have h1 : isSpace dquote = false := by decide
      have h2 : dquote ≠ ']' := by decide
      simp [lexStep, h1, h2]
    have hclose : lexRun funcs { mode := .quote, nodes := nodes, toks := toks, buf := a.data }
        [dquote, ' '] =
        .ok { mode := .action, nodes := nodes, toks := toks ++ [Tok.str a], buf := [] } := by
      have h1 : isSpace ' ' = true := by decide
      simp [lexRun, lexStep, h1]
    simp only [argsText, List.cons_append, List.append_assoc]
    rw [lexRun, hopen]
    simp only
    rw [lexRun_append, lexRun_quote_body _ _ _ _ (hplain a (List.mem_cons_self _ _))]
    simp only [List.nil_append]
    show lexRun funcs { mode := .quote, nodes := nodes, toks := toks, buf := a.data }
      ([dquote, ' '] ++ argsText rest) = _
    rw [lexRun_append, hclose]
    simp only
    rw [ih (fun b hb => hplain b (List.mem_cons_of_mem _ hb))]
    simp

theorem lexRun_call_tokens (funcs : FuncMap) (fn : String) (args : List String)
    (hident : isIdentifier fn = true) (hplain : ∀ a ∈ args, plainLiteral a) :
    lexRun funcs { mode := .text false, nodes := [], toks := [], buf := [] }
      ("[[ ".data ++ fn.data ++ [' '] ++ argsText args) =
    .ok { mode := .action, nodes := [], toks := Tok.ident fn :: args.map Tok.str, buf := [] } := by
  unfold isIdentifier at hident
  cases hdata : fn.data with
  | nil => rw [hdata] at hident; cases hident
  | cons c rest =>
    rw [hdata] at hident
    simp only [Bool.and_eq_true, List.all_eq_true] at hident
    obtain ⟨hc, hrest⟩ := hident
    obtain ⟨h1, h2, h3⟩ := isAlpha_not_special c hc
    have hfn : String.mk (c :: rest) = fn := by rw [← hdata]
    have hprefix : lexRun funcs { mode := .text false, nodes := [], toks := [], buf := [] } "[[ ".data =
        .ok { mode := .action, nodes := [], toks := [], buf := [] } := rfl
    have hfirst : lexStep funcs { mode := .action, nodes := [], toks := [], buf := [] } c =
        .ok { mode := .ident, nodes := [], toks := [], buf := [c] } := by
      simp [lexStep, h1, h2, h3, hc]
    have hblank : lexStep funcs { mode := .ident, nodes := [], toks := [], buf := c :: rest } ' ' =
        .ok { mode := .action, nodes := [], toks := [Tok.ident fn], buf := [] } := by
      have hs1 : isAlphaNumeric ' ' = false := by decide
      have hs2 : isSpace ' ' = true := by decide
      simp [lexStep, hs1, hs2, hfn]
    simp only [List.append_assoc]
    rw [lexRun_append, hprefix]
    simp only [List.cons_append]
    rw [lexRun, hfirst]
    simp only
    rw [lexRun_append, lexRun_ident_body funcs [] [] rest hrest [c]]
    simp only [List.singleton_append, List.nil_append]
    rw [lexRun, hblank]
    simp only
    rw [lexRun_args funcs [] args hplain]
    simp

theorem parseError_undefined (funcs : FuncMap) (fn : String) (args : List String)
    (hident : isIdentifier fn = true) (hkey : fn ∉ keywords) (hbuiltin : fn ∉ builtins)
    (hundef : funcs.find fn = none) (hplain : ∀ a ∈ args, plainLiteral a) :
    parseError funcs (callTemplate fn args) = some (.undefinedFunction fn) := by
  have hnode : actionNode funcs (Tok.ident fn :: args.map Tok.str) = .error (.undefinedFunction fn) := by
    simp [actionNode, hkey, hbuiltin, hundef]
  have hend : lexRun funcs
      { mode := .action, nodes := [], toks := Tok.ident fn :: args.map Tok.str, buf := [] } "]]".data =
      .error (.undefinedFunction fn) := by
    have h1 : isSpace ']' = false := by decide
    simp [lexRun, lexStep, h1, hnode]
  unfold parseError callTemplate
  simp only
  rw [lexRun_append, lexRun_call_tokens funcs fn args hident hplain]
  simp only
  rw [hend]

theorem getTemplate_of_parseError (c : SecretConverter) (item : KeyvaultSecretEntry)
    (e : TemplateError) (h : parseError c.templateFuncMap item.SecretTemplate = some e) :
    c.getTemplate item = .error e.toGoError := by
  unfold parseError at h
  unfold SecretConverter.getTemplate Parse
  unfold SecretConverter.templateFuncMap at h
  generalize lexRun _ _ item.SecretTemplate.data = r at h ⊢
  cases r with
  | error e' =>
    simp only at h ⊢
    injection h with h
    rw [h]
  | ok st =>
    simp only at h ⊢
    cases hfin : lexFinish st with
    | error e' =>
      rw [hfin] at h
      simp only at h ⊢
      injection h with h
      rw [h]
    | ok nodes => rw [hfin] at h; cases h

theorem templateFuncMap_find_none (c : SecretConverter) (fn : String)
    (h1 : fn ≠ "secretValue") (h2 : fn ≠ "secretValueForVersion") :
    c.templateFuncMap.find fn = none := by
  simp [SecretConverter.templateFuncMap, FuncMap.find, Ne.symm h1, Ne.symm h2]

theorem callTemplate_ne_empty (fn : String) (args : List String) : callTemplate fn args ≠ "" := by
  intro h
  have := congrArg String.data h
  simp [callTemplate] at this

/-- C5: when a specification holds a template entry whose template text the
parser of the library rejects (an action that is not closed, a string literal
that is not terminated, an action without a command, or a call of a function
that is not defined), whatever store the parser's functions are bound to,
`getTemplate` returns the error and `getK8sSecret` returns an error, for every
store; and a call `[[ fn "a" ... ]]` of a name `fn` that is an identifier but
neither a keyword, nor a function of the library, nor `secretValue` nor
`secretValueForVersion` is such a text: the parser rejects it as a call of a
function that is not defined, and every specification that holds a template
entry with that text makes `getK8sSecret` return an error. -/
theorem getK8sSecret_template_parse_error :
    (∀ (gv : GroupVersion) (c c' : SecretConverter) (item : KeyvaultSecretEntry) (e : TemplateError),
      item ∈ c.keyvaultSecret.Spec.Items → item.SecretTemplate ≠ "" →
      parseError c'.templateFuncMap item.SecretTemplate = some e → e ≠ .outsideFragment →
      c.getTemplate item = .error e.toGoError ∧ ∃ err, (c.getK8sSecret gv).1.2 = some err) ∧
    (∀ (gv : GroupVersion) (c : SecretConverter) (item : KeyvaultSecretEntry) (fn : String)
      (args : List String),
      isIdentifier fn = true → fn ∉ keywords → fn ∉ builtins →
      fn ≠ "secretValue" → fn ≠ "secretValueForVersion" → (∀ a ∈ args, plainLiteral a) →
      item ∈ c.keyvaultSecret.Spec.Items → item.SecretTemplate = callTemplate fn args →
      parseError c.templateFuncMap item.SecretTemplate = some (.undefinedFunction fn) ∧
      c.getTemplate item = .error (TemplateError.undefinedFunction fn).toGoError ∧
      ∃ err, (c.getK8sSecret gv).1.2 = some err) := by
  have hfail : ∀ (gv : GroupVersion) (c : SecretConverter) (item : KeyvaultSecretEntry) (err : GoError),
      item ∈ c.keyvaultSecret.Spec.Items → item.SecretTemplate ≠ "" →
      c.getTemplate item = .error err → ∃ err', (c.getK8sSecret gv).1.2 = some err' := by
    intro gv c item err hmem htmpl hget
    apply getK8sSecretLoop_error_of_entryFails c _ _ ⟨item, hmem, ?_⟩
    refine Or.inr (Or.inr ⟨by simp [KeyvaultSecretEntry.IsTemplateEntry, htmpl], err, ?_⟩)
    unfold SecretConverter.processTemplate
    rw [hget]
  constructor
  · intro gv c c' item e hmem htmpl hparse _
    have hget : c.getTemplate item = .error e.toGoError :=
      getTemplate_error_any_store c c' item _ (getTemplate_of_parseError c' item e hparse)
    exact ⟨hget, hfail gv c item _ hmem htmpl hget⟩
  · intro gv c item fn args hident hkey hbuiltin h1 h2 hplain hmem htext
    have hparse : parseError c.templateFuncMap item.SecretTemplate = some (.undefinedFunction fn) := by
      rw [htext]
      exact parseError_undefined _ fn args hident hkey hbuiltin
        (templateFuncMap_find_none c fn h1 h2) hplain
    have hget := getTemplate_of_parseError c item _ hparse
    refine ⟨hparse, hget, hfail gv c item _ hmem ?_ hget⟩
    rw [htext]
    exact callTemplate_ne_empty fn args

/-- The templates `[[ secretValue1 "k" ]]`, in a specification whose first
entry resolves, and `[[ unknownFunc "k1" ]]` call functions that are not
defined; and a template that ends inside its action is rejected as well. -/
theorem getK8sSecret_template_parse_error_witness :
    callTemplate "secretValue1" ["k"] = "[[ secretValue1 \"k\" ]]" ∧
    (parseError converterUndefinedFunc.templateFuncMap "[[ secretValue1 \"k\" ]]" =
        some (.undefinedFunction "secretValue1") ∧
      converterUndefinedFunc.getTemplate
          { KubernetesName := "o1", SecretTemplate := "[[ secretValue1 \"k\" ]]" } =
        .error (TemplateError.undefinedFunction "secretValue1").toGoError ∧
      ∃ err, (converterUndefinedFunc.getK8sSecret ⟨"g", "v1"⟩).1.2 = some err) ∧
    (∃ err, (converterUnknownFunc.getK8sSecret ⟨"g", "v1"⟩).1.2 = some err) ∧
    (∃ err, (converterUnclosed.getK8sSecret ⟨"g", "v1"⟩).1.2 = some err) :=
  ⟨by decide,
   getK8sSecret_template_parse_error.2 ⟨"g", "v1"⟩ converterUndefinedFunc
     { KubernetesName := "o1", SecretTemplate := "[[ secretValue1 \"k\" ]]" } "secretValue1" ["k"]
     (by decide) (by decide) (by decide) (by decide) (by decide)
     (by intro a ha; rw [List.mem_singleton.mp ha]; unfold plainLiteral; decide)
     (by decide) (by decide),
   (getK8sSecret_template_parse_error.2 ⟨"g", "v1"⟩ converterUnknownFunc
     { KubernetesName := "o1", SecretTemplate := "[[ unknownFunc \"k1\" ]]" } "unknownFunc" ["k1"]
     (by decide) (by decide) (by decide) (by decide) (by decide)
     (by intro a ha; rw [List.mem_singleton.mp ha]; unfold plainLiteral; decide)
     (by decide) (by decide)).2.2,
   (getK8sSecret_template_parse_error.1 ⟨"g", "v1"⟩ converterUnclosed converterEmptyStore
     { KubernetesName := "o1", SecretTemplate := "[[ secretValue \"k1\"" } .unclosedAction
     (by decide) (by decide) rfl (by decide)).2⟩

end SecretController
